import Mathlib

/-!
# golightspeed: the DNS protocol engine (`dns/dns.go`)

A shallow embedding of the wire codec (`parseDNSRequest`, `parseQName`,
`createDNSResponse`, `writeQName`), the resolver (`Server.resolveQuery`) and the
request handler (`Server.handleDNSRequest`), followed by theorems about them.

Modelling conventions.

* A Go `byte`, `uint16`, `uint32` and `int` is a `Nat`; conversions that truncate
  (`byte(len(part))`, `uint16(len(request.Questions))`) are written with an explicit `%`.
* A Go `string` is the list of its bytes (`Str`); a name read off the wire need not be
  UTF-8, so no character type is used.
* A Go `[]byte` is a `Slice`: the elements below its length (`vis`) and the elements of the
  backing array between its length and its capacity (`spare`).  Go checks an index
  expression against the length but the upper bound of a slice expression against the
  capacity, so both parts are needed to say what the decoder reads.
* A call either returns normally, returns a non-nil `error`, or stops with a run-time
  panic: `Outcome`.
* A Go `map` is an association list read with `List.lookup`; for `Server.Zones`, which the
  resolver ranges over, the order of the list is the order in which the iteration yields
  the entries.
* The standard-library call `net.ParseIP(ip).To4()` is a parameter `parseIPTo4` of the
  encoder and the handler (no bytes stand for nil).  `netParseIPTo4` models the call: its
  dotted-decimal path in full, its IPv6 path as a parameter of its own.
* `Server.Start` and the goroutines it starts are a step function over schedules of
  events: a handler reads its argument `buffer[:n]` as the shared buffer stands when the
  handler is scheduled, and a panic in a handler ends the process.
-/

namespace Golightspeed

/-- A Go string: its bytes. -/
abbrev Str := List Nat

/-- Bytes of an ASCII literal, for writing concrete names. -/
def str (s : String) : Str := s.toList.map Char.toNat

/-- How a Go call ends: a normal return, a returned non-nil `error` (with its message), a
run-time panic (index or slice bounds out of range), or, for the model of an unbounded
`for` loop only, an exhausted iteration budget. -/
inductive Outcome (α : Type) where
  | ok (a : α)
  | error (msg : String)
  | panic
  | outOfFuel
  deriving DecidableEq, Repr

/-! ## Byte slices -/

/-- A `[]byte` value: `vis` are the elements at indices below `len`, `spare` the elements
of the backing array from `len` up to `cap`. -/
structure Slice where
  vis : List Nat
  spare : List Nat
  deriving DecidableEq, Repr

namespace Slice

/-- The value of `len(data)`. -/
def len (data : Slice) : Nat := data.vis.length

/-- The value of `cap(data)`. -/
def cap (data : Slice) : Nat := data.vis.length + data.spare.length

/-- The backing array from the slice's first element up to its capacity. -/
def backing (data : Slice) : List Nat := data.vis ++ data.spare

/-- The index expression `data[i]`: in range when `i < len(data)`, a panic (`none`)
otherwise. -/
def index (data : Slice) (i : Nat) : Option Nat :=
  if i < data.len then data.vis.get? i else none

/-- The slice expression `data[lo:hi]`: in range when `lo ≤ hi ≤ cap(data)`, a panic
(`none`) otherwise.  The result has length `hi - lo` and shares the backing array. -/
def slice (data : Slice) (lo hi : Nat) : Option Slice :=
  if lo ≤ hi ∧ hi ≤ data.cap then
    some ⟨(data.backing.drop lo).take (hi - lo), data.backing.drop hi⟩
  else none

/-- The slice expression `data[lo:]`, which is `data[lo:len(data)]`. -/
def sliceFrom (data : Slice) (lo : Nat) : Option Slice :=
  data.slice lo data.len

end Slice

/-- The value of `binary.BigEndian.Uint16(b)`: it panics (`none`) when `len(b) < 2`. -/
def bigEndianUint16 (b : Slice) : Option Nat :=
  match b.index 1, b.index 0 with
  | some b1, some b0 => some (b0 * 256 + b1)
  | _, _ => none

/-! ## Strings -/

/-- The value of `strings.Join(parts, sep)`. -/
def stringsJoin : List Str → Str → Str
  | [], _ => []
  | [p], _ => p
  | p :: q :: rest, sep => p ++ sep ++ stringsJoin (q :: rest) sep

/-- The value of `strings.Split(s, sep)` for a one-byte separator `sep`: the pieces of `s`
between the occurrences of `sep`, one more piece than there are occurrences. -/
def stringsSplit : Str → Nat → List Str
  | [], _ => [[]]
  | c :: cs, sep =>
    if c = sep then [] :: stringsSplit cs sep
    else
      match stringsSplit cs sep with
      | [] => [[c]]
      | p :: ps => (c :: p) :: ps

/-- The value of `strings.HasSuffix(s, suffix)`:
`len(s) >= len(suffix) && s[len(s)-len(suffix):] == suffix`. -/
def stringsHasSuffix (s suffix : Str) : Bool :=
  decide (suffix.length ≤ s.length) && (s.drop (s.length - suffix.length) == suffix)

/-! ## Data model -/

/-- The struct `DNSQuestion`. -/
structure DNSQuestion where
  Name : Str
  QType : Nat
  QClass : Nat
  deriving DecidableEq, Repr

/-- The struct `DNSRequest`. -/
structure DNSRequest where
  ID : Nat
  Flags : Nat
  Questions : List DNSQuestion
  deriving DecidableEq, Repr

/-- The struct `Zone`. -/
structure Zone where
  Records : List (Str × Str)
  deriving DecidableEq, Repr

/-- The struct `Server`. -/
structure Server where
  Port : Int
  DefaultTTL : Nat
  Records : List (Str × Str)
  Zones : List (Str × Zone)
  deriving DecidableEq, Repr

/-! ## Decoding -/

/-- The `for` loop of `parseQName`, with the iteration budget as first argument.  The
state is `nameParts` and `offset`; the loop leaves through `break` with that state. -/
def parseQNameLoop (data : Slice) : Nat → List Str → Nat → Outcome (List Str × Nat)
  | 0, _, _ => .outOfFuel
  | fuel + 1, nameParts, offset =>
    match data.index offset with
    | none => .panic
    | some length =>
      if length = 0 then .ok (nameParts, offset)
      else
        match data.slice (offset + 1) (offset + 1 + length) with
        | none => .panic
        | some part => parseQNameLoop data fuel (nameParts ++ [part.vis]) (offset + 1 + length)

/-- The function `parseQName`.  Every pass through the loop that does not leave it moves
`offset` forward, and an `offset` at or beyond `len(data)` panics, so `len(data) + 1`
passes are enough (`parseQName_terminates`). -/
def parseQName (data : Slice) : Outcome (Str × Nat) :=
  match parseQNameLoop data (data.len + 1) [] 0 with
  | .ok (nameParts, offset) => .ok (stringsJoin nameParts (str "."), offset + 1)
  | .error msg => .error msg
  | .panic => .panic
  | .outOfFuel => .outOfFuel

/-- The question loop of `parseDNSRequest`: the first argument is the number of iterations
left (`int(questionCount) - i`), the state is `offset` and `request.Questions`. -/
def parseQuestions (data : Slice) : Nat → Nat → List DNSQuestion → Outcome (List DNSQuestion)
  | 0, _, questions => .ok questions
  | k + 1, offset, questions =>
    match data.sliceFrom offset with
    | none => .panic
    | some tail =>
      match parseQName tail with
      | .ok (qName, n) =>
        match (data.slice (offset + n) (offset + n + 2)).bind bigEndianUint16 with
        | none => .panic
        | some qType =>
          match (data.slice (offset + n + 2) (offset + n + 2 + 2)).bind bigEndianUint16 with
          | none => .panic
          | some qClass =>
            parseQuestions data k (offset + n + 2 + 2)
              (questions ++ [{ Name := qName, QType := qType, QClass := qClass }])
      | .error msg => .error msg
      | .panic => .panic
      | .outOfFuel => .outOfFuel

/-- The function `parseDNSRequest`. -/
def parseDNSRequest (data : Slice) : Outcome DNSRequest :=
  if data.len < 12 then .error "invalid DNS packet"
  else
    match (data.slice 0 2).bind bigEndianUint16, (data.slice 2 4).bind bigEndianUint16,
        (data.slice 4 6).bind bigEndianUint16 with
    | some id, some flags, some questionCount =>
      match parseQuestions data questionCount 12 [] with
      | .ok questions => .ok { ID := id, Flags := flags, Questions := questions }
      | .error msg => .error msg
      | .panic => .panic
      | .outOfFuel => .outOfFuel
    | _, _, _ => .panic

/-! ## Encoding -/

/-- The call `binary.Write(&buffer, binary.BigEndian, v)` for a `uint16` value `v`. -/
def binaryWriteUint16 (buffer : List Nat) (v : Nat) : List Nat :=
  buffer ++ [v / 256 % 256, v % 256]

/-- The call `binary.Write(&buffer, binary.BigEndian, v)` for a `uint32` value `v`. -/
def binaryWriteUint32 (buffer : List Nat) (v : Nat) : List Nat :=
  buffer ++ [v / 16777216 % 256, v / 65536 % 256, v / 256 % 256, v % 256]

/-- The function `writeQName`: for each part, `buffer.WriteByte(byte(len(part)))` and
`buffer.WriteString(part)`; then `buffer.WriteByte(0)`. -/
def writeQName (buffer : List Nat) (name : Str) : List Nat :=
  (stringsSplit name 46).foldl (fun buffer part => (buffer ++ [part.length % 256]) ++ part)
    buffer ++ [0]

/-- The body of the question loop of `createDNSResponse`.  `parseIPTo4 ip` stands for the
bytes of `net.ParseIP(ip).To4()`, a standard-library call: four bytes, or none when the
result is nil. -/
def writeQuestion (parseIPTo4 : Str → List Nat) (resolver : Str → Str × Nat × Option String)
    (buffer : List Nat) (question : DNSQuestion) : List Nat :=
  let buffer := writeQName buffer question.Name
  let buffer := binaryWriteUint16 buffer question.QType
  let buffer := binaryWriteUint16 buffer question.QClass
  match resolver question.Name with
  | (ip, ttl, none) =>
    let buffer := writeQName buffer question.Name
    let buffer := binaryWriteUint16 buffer question.QType
    let buffer := binaryWriteUint16 buffer question.QClass
    let buffer := binaryWriteUint32 buffer ttl
    let buffer := binaryWriteUint16 buffer 4
    buffer ++ parseIPTo4 ip
  | (_, _, some _) => buffer

/-- The function `createDNSResponse`. -/
def createDNSResponse (parseIPTo4 : Str → List Nat) (request : DNSRequest)
    (resolver : Str → Str × Nat × Option String) : List Nat :=
  let buffer := []
  let buffer := binaryWriteUint16 buffer request.ID
  let buffer := binaryWriteUint16 buffer 0x8180
  let buffer := binaryWriteUint16 buffer (request.Questions.length % 65536)
  let buffer := binaryWriteUint16 buffer (request.Questions.length % 65536)
  let buffer := binaryWriteUint16 buffer 0
  let buffer := binaryWriteUint16 buffer 0
  request.Questions.foldl (writeQuestion parseIPTo4 resolver) buffer

/-! ## Resolution -/

/-- The `range s.Zones` loop of `resolveQuery` over the entries still to be visited,
ending in the not-found return. -/
def resolveZones (name : Str) (defaultTTL : Nat) : List (Str × Zone) → Str × Nat × Option String
  | [] => ([], 0, some "record not found")
  | (zoneName, zone) :: rest =>
    if stringsHasSuffix name zoneName then
      match zone.Records.lookup name with
      | some ip => (ip, defaultTTL, none)
      | none => resolveZones name defaultTTL rest
    else resolveZones name defaultTTL rest

/-- The method `Server.resolveQuery`: the returned triple `(ip, ttl, err)`. -/
def Server.resolveQuery (s : Server) (name : Str) : Str × Nat × Option String :=
  match s.Records.lookup name with
  | some ip => (ip, s.DefaultTTL, none)
  | none => resolveZones name s.DefaultTTL s.Zones

/-! ## Request handler -/

/-- The method `Server.handleDNSRequest`: the datagrams it writes to the client with
`conn.WriteToUDP`, in order. -/
def Server.handleDNSRequest (parseIPTo4 : Str → List Nat) (s : Server) (data : Slice) :
    Outcome (List (List Nat)) :=
  match parseDNSRequest data with
  | .error _ => .ok []
  | .ok request => .ok [createDNSResponse parseIPTo4 request s.resolveQuery]
  | .panic => .panic
  | .outOfFuel => .outOfFuel

/-! ## Specification-side vocabulary -/

/-- The wire form of a list of labels, without the terminator: each label preceded by its
length. -/
def encodeLabels : List Str → List Nat
  | [] => []
  | l :: ls => l.length :: l ++ encodeLabels ls

/-- A well-formed label list: one or more labels, each of 1 to 63 bytes, none holding a
`.` byte. -/
def ValidLabels (labels : List Str) : Prop :=
  labels ≠ [] ∧ ∀ l ∈ labels, 1 ≤ l.length ∧ l.length ≤ 63 ∧ 46 ∉ l

/-- The two bytes of a 16-bit value, most significant first. -/
def be16 (v : Nat) : List Nat := [v / 256 % 256, v % 256]

/-- The four bytes of a 32-bit value, most significant first. -/
def be32 (v : Nat) : List Nat :=
  [v / 16777216 % 256, v / 65536 % 256, v / 256 % 256, v % 256]

/-- One question on the wire: encoded name, type, class. -/
def questionWire (name : Str) (qType qClass : Nat) : List Nat :=
  writeQName [] name ++ be16 qType ++ be16 qClass

/-- A well-formed name: the labels of a well-formed label list joined with `.`. -/
def ValidName (name : Str) : Prop :=
  ∃ labels, ValidLabels labels ∧ name = stringsJoin labels (str ".")

/-- The wire form of a decoded question. -/
def DNSQuestion.wire (q : DNSQuestion) : List Nat :=
  questionWire q.Name q.QType q.QClass

/-- A question a well-formed request can carry: a well-formed name and 16-bit type and
class codes. -/
def ValidQuestion (q : DNSQuestion) : Prop :=
  ValidName q.Name ∧ q.QType < 65536 ∧ q.QClass < 65536

/-- An answer record on the wire: encoded name, type, class, TTL, the resource-data length
4, and the address bytes `net.ParseIP(ip).To4()`. -/
def answerWire (parseIPTo4 : Str → List Nat) (q : DNSQuestion) (ip : Str) (ttl : Nat) :
    List Nat :=
  writeQName [] q.Name ++ be16 q.QType ++ be16 q.QClass ++ be32 ttl ++ [0, 4] ++ parseIPTo4 ip

/-- What the response holds for one question: the question, then its answer record when the
resolver returned a nil error and nothing when it returned an error. -/
def entryWire (parseIPTo4 : Str → List Nat) (resolver : Str → Str × Nat × Option String)
    (q : DNSQuestion) : List Nat :=
  q.wire ++
    match resolver q.Name with
    | (ip, ttl, none) => answerWire parseIPTo4 q ip ttl
    | (_, _, some _) => []

/-- The resolver found no record for `name`: it is no key of the global table, and no zone
whose key is a suffix of `name` has `name` among its records. -/
def NoRecord (s : Server) (name : Str) : Prop :=
  s.Records.lookup name = none
    ∧ ∀ z ∈ s.Zones, z.1 <:+ name → z.2.Records.lookup name = none

/-! ## Listener -/

/-- The receive buffer of `Server.Start`, `make([]byte, 512)`. -/
def newBuffer : List Nat := List.replicate 512 0

/-- The call `conn.ReadFromUDP(buffer)` when `datagram` arrives: the datagram's first
`len(buffer)` bytes are copied to the front of the buffer and the rest of the buffer keeps
what it held; the result is the buffer afterwards and the number `n` of bytes copied. -/
def readFromUDP (buffer datagram : List Nat) : List Nat × Nat :=
  let n := min datagram.length buffer.length
  (datagram.take n ++ buffer.drop n, n)

/-- The slice expression `buffer[:n]` on the receive buffer, for `n ≤ len(buffer)`: its
length is `n`, its capacity that of the buffer, and it shares the buffer's storage. -/
def bufferPrefix (buffer : List Nat) (n : Nat) : Slice :=
  ⟨buffer.take n, buffer.drop n⟩

/-- A question as it stands in a datagram: the labels of its name, its type, its class. -/
abbrev WireQuestion := List Str × Nat × Nat

/-- The bytes of a question in a datagram: each label behind its length byte, the zero
byte that ends the name, two bytes of type and two of class. -/
def WireQuestion.bytes (w : WireQuestion) : List Nat :=
  encodeLabels w.1 ++ 0 :: (be16 w.2.1 ++ be16 w.2.2)

/-- The question the decoder makes of a question in a datagram: the labels joined with
`.`, the type and the class. -/
def WireQuestion.decoded (w : WireQuestion) : DNSQuestion :=
  { Name := stringsJoin w.1 (str "."), QType := w.2.1, QClass := w.2.2 }

/-- A question that can stand in a datagram: every label has a length byte between 1 and
255, and type and class are 16-bit values.  The name may be the root (no label) and a
label may hold a `.` byte. -/
def WireQuestion.OnWire (w : WireQuestion) : Prop :=
  (∀ l ∈ w.1, 1 ≤ l.length ∧ l.length ≤ 255) ∧ w.2.1 < 65536 ∧ w.2.2 < 65536

/-- A name on the wire that `writeQName` gives back: one label or more, none holding a
`.` byte. -/
def WireQuestion.Plain (w : WireQuestion) : Prop :=
  w.1 ≠ [] ∧ ∀ l ∈ w.1, 46 ∉ l

/-! ## The standard library's address parser -/

/-- The loop of the Go standard library's `parseIPv4` (package `net/netip`, Go 1.17 and
later) over the bytes still to read.  The state is the byte read before (`none` at
`i == 0`), the `fields` filled so far (`pos` is their number), `val` and `digLen`.
A digit extends the current octet, rejected after a leading zero or above 255; a `.` closes
an octet, rejected at the start, at the end, after another `.` or after the third octet;
any other byte is rejected; at the end fewer than three closed octets are rejected. -/
def parseIPv4Loop : Str → Option Nat → List Nat → Nat → Nat → Option (List Nat)
  | [], _, fields, val, _ =>
    if fields.length < 3 then none else some (fields ++ [val % 256])
  | c :: cs, prev, fields, val, digLen =>
    if 48 ≤ c ∧ c ≤ 57 then
      if digLen = 1 ∧ val = 0 then none
      else if val * 10 + c - 48 > 255 then none
      else parseIPv4Loop cs (some c) fields (val * 10 + c - 48) (digLen + 1)
    else if c = 46 then
      if prev = none ∨ cs = [] ∨ prev = some 46 then none
      else if fields.length = 3 then none
      else parseIPv4Loop cs (some c) (fields ++ [val % 256]) 0 0
    else none

/-- The scan of the standard library's `netip.ParseAddr`: the first `.`, `:` or `%` byte
of the text, which decides how the text is read. -/
def parseAddrFirst : Str → Option Nat
  | [] => none
  | c :: cs => if c = 46 ∨ c = 58 ∨ c = 37 then some c else parseAddrFirst cs

/-- Model of the standard-library call `net.ParseIP(s).To4()`: the four address bytes, or
no bytes when the call returns nil.  As in `netip.ParseAddr`, text whose first `.`, `:`
or `%` byte is a `.` is read by `parseIPv4` as dotted decimal; text where it is a `:` is
IPv6 syntax, which can also stand for an IPv4 address (`::ffff:10.0.0.5`), and what the
library makes of it is the parameter `parseIPv6To4`; text where it is a `%`, or that has
none of the three, is no address. -/
def netParseIPTo4 (parseIPv6To4 : Str → List Nat) (s : Str) : List Nat :=
  match parseAddrFirst s with
  | none => []
  | some c =>
    if c = 46 then (parseIPv4Loop s none [] 0 0).getD []
    else if c = 58 then parseIPv6To4 s
    else []

/-- The decimal digits of an octet, as the bytes of their ASCII characters. -/
def decimal (n : Nat) : Str :=
  if n < 10 then [48 + n]
  else if n < 100 then [48 + n / 10, 48 + n % 10]
  else [48 + n / 100, 48 + n / 10 % 10, 48 + n % 10]

/-- The dotted-quad text `a.b.c.d`. -/
def dottedQuad (a b c d : Nat) : Str :=
  decimal a ++ 46 :: (decimal b ++ 46 :: (decimal c ++ 46 :: decimal d))

/-- State of `Server.Start` and of the handlers it has started: the one receive buffer,
for every handler started with `go` and not yet run the length `n` of its argument
`buffer[:n]` (the argument shares the buffer's storage, so its bytes are those the buffer
holds when the handler reads them), what the handlers that ran wrote to the client, and
whether the process has ended. -/
structure Listener where
  buffer : List Nat
  running : List Nat
  written : List (Outcome (List (List Nat)))
  exited : Bool
  deriving DecidableEq, Repr

/-- What happens next: the loop of `Server.Start` receives a datagram and starts a handler
for it, or the handler at position `i` among the running ones is scheduled and runs to its
end. -/
inductive Event where
  | receive (datagram : List Nat)
  | run (i : Nat)
  deriving DecidableEq, Repr

/-- One step of the server.  On `receive`, `conn.ReadFromUDP(buffer)` fills the buffer and
`go s.handleDNSRequest(buffer[:n], clientAddr, conn)` starts a handler; the loop then goes
on without waiting for it.  On `run`, that handler decodes its argument as the buffer
stands at that moment; a panic in it is not recovered anywhere, so it ends the process,
listener and other handlers included, and nothing happens after that. -/
def Server.step (parseIPTo4 : Str → List Nat) (s : Server) (l : Listener) (e : Event) :
    Listener :=
  if l.exited then l
  else
    match e with
    | .receive datagram =>
      { l with buffer := (readFromUDP l.buffer datagram).1,
               running := l.running ++ [(readFromUDP l.buffer datagram).2] }
    | .run i =>
      match l.running.get? i with
      | none => l
      | some n =>
        match s.handleDNSRequest parseIPTo4 (bufferPrefix l.buffer n) with
        | .panic => { l with running := [], exited := true }
        | outcome =>
          { l with running := l.running.eraseIdx i, written := l.written ++ [outcome] }

/-- The method `Server.Start` after the socket is bound, run along a schedule of events
from the fresh buffer. -/
def Server.Start (parseIPTo4 : Str → List Nat) (s : Server) (events : List Event) : Listener :=
  events.foldl (s.step parseIPTo4) ⟨newBuffer, [], [], false⟩

/-- What the resolver returned for a name, read as the outcome of the resolution: it is
`some ((a, b, c, d), ttl)` when the returned error is nil, the returned TTL is `ttl` and
the library reads the returned address text as the IPv4 address `a.b.c.d`; it is `none`
when the returned error is not nil. -/
def Resolved (parseIPTo4 : Str → List Nat) (res : Str × Nat × Option String) :
    Option ((Nat × Nat × Nat × Nat) × Nat) → Prop
  | some ((a, b, c, d), ttl) =>
    res.2.2 = none ∧ res.2.1 = ttl ∧ parseIPTo4 res.1 = [a, b, c, d]
  | none => res.2.2 ≠ none

/-! ## Strings: lemmas -/

theorem str_dot : str "." = [46] := by decide

theorem stringsJoin_cons_cons (p q : Str) (rest : List Str) (sep : Str) :
    stringsJoin (p :: q :: rest) sep = p ++ sep ++ stringsJoin (q :: rest) sep := rfl

theorem stringsSplit_ne_nil (s : Str) (sep : Nat) : stringsSplit s sep ≠ [] := by
  induction s with
  | nil => simp [stringsSplit]
  | cons c cs ih =>
    unfold stringsSplit
    split
    · simp
    · split <;> simp

theorem stringsSplit_cons_ne (c : Nat) (cs : Str) (sep : Nat) (h : c ≠ sep) :
    stringsSplit (c :: cs) sep
      = match stringsSplit cs sep with
        | [] => [[c]]
        | p :: ps => (c :: p) :: ps := by
  simp [stringsSplit, h]

theorem stringsSplit_append_sep (p : Str) (sep : Nat) (hp : sep ∉ p) (s : Str) :
    stringsSplit (p ++ sep :: s) sep = p :: stringsSplit s sep := by
  induction p with
  | nil => simp [stringsSplit]
  | cons c cs ih =>
    have hc : c ≠ sep := fun h => hp (by simp [h])
    have hcs : sep ∉ cs := fun h => hp (by simp [h])
    rw [List.cons_append, stringsSplit_cons_ne _ _ _ hc, ih hcs]

theorem stringsSplit_no_sep (p : Str) (sep : Nat) (hp : sep ∉ p) :
    stringsSplit p sep = [p] := by
  induction p with
  | nil => simp [stringsSplit]
  | cons c cs ih =>
    have hc : c ≠ sep := fun h => hp (by simp [h])
    have hcs : sep ∉ cs := fun h => hp (by simp [h])
    simp only [stringsSplit, if_neg hc, ih hcs]

/-- Splitting a joined list of separator-free parts gives the parts back. -/
theorem stringsSplit_stringsJoin (parts : List Str) (sep : Nat) (hne : parts ≠ [])
    (h : ∀ p ∈ parts, sep ∉ p) : stringsSplit (stringsJoin parts [sep]) sep = parts := by
  induction parts with
  | nil => exact absurd rfl hne
  | cons p rest ih =>
    cases rest with
    | nil => simpa [stringsJoin] using stringsSplit_no_sep p sep (h p (by simp))
    | cons q rest =>
      rw [stringsJoin_cons_cons, List.append_assoc, List.singleton_append,
        stringsSplit_append_sep p sep (h p (by simp)),
        ih (by simp) (fun x hx => h x (List.mem_cons_of_mem _ hx))]

/-- Length of a joined name plus two is the length of its wire form with terminator. -/
theorem stringsJoin_length (parts : List Str) (hne : parts ≠ []) :
    (stringsJoin parts [46]).length + 2 = (encodeLabels parts).length + 1 := by
  induction parts with
  | nil => exact absurd rfl hne
  | cons p rest ih =>
    cases rest with
    | nil => simp [stringsJoin, encodeLabels]
    | cons q rest =>
      have := ih (by simp)
      rw [stringsJoin_cons_cons]
      simp only [encodeLabels, List.length_append, List.length_cons, List.length_nil] at this ⊢
      omega

theorem stringsHasSuffix_iff (s suffix : Str) :
    stringsHasSuffix s suffix = true ↔ suffix <:+ s := by
  unfold stringsHasSuffix
  simp only [Bool.and_eq_true, decide_eq_true_eq, beq_iff_eq]
  constructor
  · rintro ⟨_, h⟩
    exact h ▸ List.drop_suffix _ _
  · intro h
    refine ⟨h.length_le, ?_⟩
    obtain ⟨t, rfl⟩ := h
    simp

/-! ## Encoding: lemmas -/

theorem writeQName_foldl (parts : List Str) (buffer : List Nat) :
    parts.foldl (fun buffer part => (buffer ++ [part.length % 256]) ++ part) buffer
      = buffer ++ (parts.map fun p => (p.length % 256) :: p).flatten := by
  induction parts generalizing buffer with
  | nil => simp
  | cons p rest ih =>
    rw [List.foldl_cons, ih]
    simp

/-- What `writeQName` appends is independent of the buffer it appends to. -/
theorem writeQName_append (buffer : List Nat) (name : Str) :
    writeQName buffer name = buffer ++ writeQName [] name := by
  unfold writeQName
  rw [writeQName_foldl, writeQName_foldl]
  simp

theorem encodeLabels_eq (labels : List Str) (h : ∀ l ∈ labels, l.length ≤ 63) :
    (labels.map fun p => (p.length % 256) :: p).flatten = encodeLabels labels := by
  induction labels with
  | nil => rfl
  | cons l ls ih =>
    have hl : l.length % 256 = l.length := Nat.mod_eq_of_lt (by have := h l (by simp); omega)
    simp [encodeLabels, hl, ih (fun x hx => h x (List.mem_cons_of_mem _ hx))]

/-- The bytes `writeQName` writes for a well-formed name. -/
theorem writeQName_labels (labels : List Str) (h : ValidLabels labels) :
    writeQName [] (stringsJoin labels (str ".")) = encodeLabels labels ++ [0] := by
  rw [str_dot]
  unfold writeQName
  rw [stringsSplit_stringsJoin labels 46 h.1 (fun p hp => (h.2 p hp).2.2), writeQName_foldl,
    encodeLabels_eq labels (fun l hl => (h.2 l hl).2.1)]
  simp

/-! ## Byte slices: lemmas -/

theorem Slice.index_at (a c spare : List Nat) (x : Nat) :
    Slice.index ⟨a ++ x :: c, spare⟩ a.length = some x := by
  unfold Slice.index
  rw [if_pos (by simp [Slice.len]), List.get?_eq_getElem?,
    List.getElem?_append_right (Nat.le_refl _)]
  simp

theorem Slice.index_eq_none (data : Slice) (i : Nat) (h : data.len ≤ i) :
    data.index i = none := by
  simp [Slice.index, Nat.not_lt.mpr h]

theorem Slice.slice_at (data : Slice) (a b c : List Nat) (h : data.backing = a ++ (b ++ c)) :
    data.slice a.length (a.length + b.length) = some ⟨b, c⟩ := by
  have hcap : data.cap = a.length + (b.length + c.length) := by
    have := congrArg List.length h
    simpa [Slice.backing, Slice.cap] using this
  unfold Slice.slice
  rw [if_pos ⟨by omega, by omega⟩, h]
  have h1 : List.take (a.length + b.length - a.length) (List.drop a.length (a ++ (b ++ c)))
      = b := by simp
  have h2 : List.drop (a.length + b.length) (a ++ (b ++ c)) = c := by
    rw [← List.append_assoc, ← List.length_append, List.drop_left]
  rw [h1, h2]

theorem bigEndianUint16_pair (b0 b1 : Nat) (spare : List Nat) :
    bigEndianUint16 ⟨[b0, b1], spare⟩ = some (b0 * 256 + b1) := by
  simp [bigEndianUint16, Slice.index, Slice.len]

/-- Reading a 16-bit field that lies within the backing array. -/
theorem Slice.uint16_at (data : Slice) (a c : List Nat) (b0 b1 : Nat)
    (h : data.backing = a ++ (b0 :: b1 :: c)) :
    (data.slice a.length (a.length + 2)).bind bigEndianUint16 = some (b0 * 256 + b1) := by
  have := Slice.slice_at data a [b0, b1] c (by simpa using h)
  simp only [List.length_cons, List.length_nil] at this
  rw [this]
  exact bigEndianUint16_pair b0 b1 c

theorem be16_value (v : Nat) (h : v < 65536) : v / 256 % 256 * 256 + v % 256 = v := by omega

/-! ## Decoding: lemmas -/

/-- The loop of `parseQName` run over encoded labels followed by the terminator. -/
theorem parseQNameLoop_labels (labels : List Str) (hl : ∀ l ∈ labels, 1 ≤ l.length)
    (pre post spare : List Nat) (acc : List Str) (fuel : Nat) (hf : labels.length < fuel) :
    parseQNameLoop ⟨pre ++ (encodeLabels labels ++ 0 :: post), spare⟩ fuel acc pre.length
      = .ok (acc ++ labels, pre.length + (encodeLabels labels).length) := by
  induction labels generalizing pre acc fuel with
  | nil =>
    obtain ⟨f, rfl⟩ : ∃ f, fuel = f + 1 := ⟨fuel - 1, by simp at hf; omega⟩
    simp [parseQNameLoop, encodeLabels, Slice.index_at]
  | cons l ls ih =>
    obtain ⟨f, rfl⟩ : ∃ f, fuel = f + 1 := ⟨fuel - 1, by omega⟩
    have hpos : l.length ≠ 0 := by have := hl l (by simp); omega
    have hidx : Slice.index ⟨pre ++ (encodeLabels (l :: ls) ++ 0 :: post), spare⟩ pre.length
        = some l.length := by
      simpa [encodeLabels] using Slice.index_at pre (l ++ (encodeLabels ls ++ 0 :: post)) spare
        l.length
    have hsl : Slice.slice ⟨pre ++ (encodeLabels (l :: ls) ++ 0 :: post), spare⟩
        (pre.length + 1) (pre.length + 1 + l.length)
        = some ⟨l, (encodeLabels ls ++ 0 :: post) ++ spare⟩ := by
      have := Slice.slice_at ⟨pre ++ (encodeLabels (l :: ls) ++ 0 :: post), spare⟩
        (pre ++ [l.length]) l ((encodeLabels ls ++ 0 :: post) ++ spare)
        (by simp [Slice.backing, encodeLabels])
      simpa using this
    have hdata : pre ++ (encodeLabels (l :: ls) ++ 0 :: post)
        = (pre ++ l.length :: l) ++ (encodeLabels ls ++ 0 :: post) := by
      simp [encodeLabels]
    have hrec := ih (fun x hx => hl x (List.mem_cons_of_mem _ hx)) (pre ++ l.length :: l)
      (acc ++ [l]) f (by simp at hf; omega)
    rw [parseQNameLoop, hidx]
    simp only [if_neg hpos, hsl]
    rw [hdata]
    have hoff : pre.length + 1 + l.length = (pre ++ l.length :: l).length := by
      simp; omega
    rw [hoff, hrec]
    simp [encodeLabels]
    omega

theorem encodeLabels_length_ge (labels : List Str) :
    labels.length ≤ (encodeLabels labels).length := by
  induction labels with
  | nil => simp
  | cons l ls ih => simp [encodeLabels]; omega

/-- Decoding an encoded well-formed name that starts the slice, whatever follows it. -/
theorem parseQName_labels (labels : List Str) (h : ValidLabels labels) (post spare : List Nat) :
    parseQName ⟨encodeLabels labels ++ 0 :: post, spare⟩
      = .ok (stringsJoin labels (str "."), (encodeLabels labels).length + 1) := by
  have hloop := parseQNameLoop_labels labels (fun l hl => (h.2 l hl).1) [] post spare []
    ((encodeLabels labels ++ 0 :: post).length + 1)
    (by have := encodeLabels_length_ge labels; simp; omega)
  simp only [List.nil_append, List.length_nil, Nat.zero_add] at hloop
  unfold parseQName
  simp only [Slice.len]
  rw [hloop]

theorem Slice.sliceFrom_at (a b spare : List Nat) :
    Slice.sliceFrom ⟨a ++ b, spare⟩ a.length = some ⟨b, spare⟩ := by
  have := Slice.slice_at ⟨a ++ b, spare⟩ a b spare (by simp [Slice.backing])
  simpa [Slice.sliceFrom, Slice.len] using this

/-- The wire form of a well-formed question, byte by byte. -/
theorem DNSQuestion.wire_eq (q : DNSQuestion) (labels : List Str) (h : ValidLabels labels)
    (hn : q.Name = stringsJoin labels (str ".")) :
    q.wire = encodeLabels labels
      ++ 0 :: q.QType / 256 % 256 :: q.QType % 256 :: q.QClass / 256 % 256 :: [q.QClass % 256] := by
  simp [DNSQuestion.wire, questionWire, hn, writeQName_labels labels h, be16]

/-- The question loop of `parseDNSRequest` run over the wire forms of well-formed
questions. -/
theorem parseQuestions_wire (qs : List DNSQuestion) (hq : ∀ q ∈ qs, ValidQuestion q)
    (pre post spare : List Nat) (acc : List DNSQuestion) :
    parseQuestions ⟨pre ++ ((qs.map DNSQuestion.wire).flatten ++ post), spare⟩ qs.length
      pre.length acc = .ok (acc ++ qs) := by
  induction qs generalizing pre acc with
  | nil => simp [parseQuestions]
  | cons q qs ih =>
    obtain ⟨⟨labels, hl, hn⟩, ht, hc⟩ := hq q (by simp)
    have hw := DNSQuestion.wire_eq q labels hl hn
    generalize hrest : (qs.map DNSQuestion.wire).flatten ++ post = rest at ih
    have hdata : pre ++ (((q :: qs).map DNSQuestion.wire).flatten ++ post)
        = pre ++ (encodeLabels labels
          ++ 0 :: q.QType / 256 % 256 :: q.QType % 256 :: q.QClass / 256 % 256 :: q.QClass % 256 :: rest) := by
      simp [hw, ← hrest]
    rw [hdata]
    have htail := Slice.sliceFrom_at pre (encodeLabels labels
      ++ 0 :: q.QType / 256 % 256 :: q.QType % 256 :: q.QClass / 256 % 256 :: q.QClass % 256 :: rest) spare
    have hname := parseQName_labels labels hl
      (q.QType / 256 % 256 :: q.QType % 256 :: q.QClass / 256 % 256 :: q.QClass % 256 :: rest) spare
    have htype := Slice.uint16_at ⟨pre ++ (encodeLabels labels
      ++ 0 :: q.QType / 256 % 256 :: q.QType % 256 :: q.QClass / 256 % 256 :: q.QClass % 256 :: rest), spare⟩
      (pre ++ (encodeLabels labels ++ [0])) (q.QClass / 256 % 256 :: q.QClass % 256 :: rest ++ spare)
      (q.QType / 256 % 256) (q.QType % 256) (by simp [Slice.backing])
    have hclass := Slice.uint16_at ⟨pre ++ (encodeLabels labels
      ++ 0 :: q.QType / 256 % 256 :: q.QType % 256 :: q.QClass / 256 % 256 :: q.QClass % 256 :: rest), spare⟩
      (pre ++ (encodeLabels labels ++ [0, q.QType / 256 % 256, q.QType % 256])) (rest ++ spare)
      (q.QClass / 256 % 256) (q.QClass % 256) (by simp [Slice.backing])
    have ho1 : (pre ++ (encodeLabels labels ++ [0])).length
        = pre.length + ((encodeLabels labels).length + 1) := by simp
    have ho2 : (pre ++ (encodeLabels labels ++ [0, q.QType / 256 % 256, q.QType % 256])).length
        = pre.length + ((encodeLabels labels).length + 1) + 2 := by simp; omega
    rw [ho1] at htype
    rw [ho2] at hclass
    have hrec := ih (fun x hx => hq x (List.mem_cons_of_mem _ hx))
      (pre ++ (encodeLabels labels
        ++ 0 :: q.QType / 256 % 256 :: q.QType % 256 :: q.QClass / 256 % 256 :: [q.QClass % 256]))
      (acc ++ [q])
    have ho3 : (pre ++ (encodeLabels labels
        ++ 0 :: q.QType / 256 % 256 :: q.QType % 256 :: q.QClass / 256 % 256 :: [q.QClass % 256])).length
        = pre.length + ((encodeLabels labels).length + 1) + 2 + 2 := by simp; omega
    have hd3 : (pre ++ (encodeLabels labels
        ++ 0 :: q.QType / 256 % 256 :: q.QType % 256 :: q.QClass / 256 % 256 :: [q.QClass % 256])) ++ rest
        = pre ++ (encodeLabels labels
          ++ 0 :: q.QType / 256 % 256 :: q.QType % 256 :: q.QClass / 256 % 256 :: q.QClass % 256 :: rest) := by
      simp
    rw [ho3, hd3] at hrec
    rw [List.length_cons, parseQuestions, htail]
    simp only [hname, htype, hclass, be16_value _ ht, be16_value _ hc]
    rw [← hn]
    simpa using hrec

/-- The loop of `parseQName` never exhausts a budget that exceeds the bytes left. -/
theorem parseQNameLoop_ne_outOfFuel (data : Slice) (fuel : Nat) (acc : List Str) (offset : Nat)
    (h1 : 1 ≤ fuel) (h2 : data.len + 1 ≤ fuel + offset) :
    parseQNameLoop data fuel acc offset ≠ .outOfFuel := by
  induction fuel generalizing acc offset with
  | zero => omega
  | succ f ih =>
    rw [parseQNameLoop]
    cases hidx : data.index offset with
    | none => simp
    | some length =>
      have hlt : offset < data.len := by
        by_contra hge
        rw [Slice.index_eq_none data offset (by omega)] at hidx
        cases hidx
      by_cases hz : length = 0
      · simp [hz]
      · simp only [if_neg hz]
        cases data.slice (offset + 1) (offset + 1 + length) with
        | none => simp
        | some part => exact ih _ _ (by omega) (by omega)

/-- The model of `parseQName` always ends as the Go function does: with a result or a
panic. -/
theorem parseQName_terminates (data : Slice) :
    (∃ r, parseQName data = .ok r) ∨ parseQName data = .panic := by
  have h := parseQNameLoop_ne_outOfFuel data (data.len + 1) [] 0 (by omega) (by omega)
  have herr : ∀ (fuel : Nat) (acc : List Str) (offset : Nat) (msg : String),
      parseQNameLoop data fuel acc offset ≠ .error msg := by
    intro fuel
    induction fuel with
    | zero => intro acc offset msg; simp [parseQNameLoop]
    | succ f ih =>
      intro acc offset msg
      rw [parseQNameLoop]
      split
      · simp
      · split
        · simp
        · split
          · simp
          · exact ih _ _ _
  unfold parseQName
  cases hloop : parseQNameLoop data (data.len + 1) [] 0 with
  | ok r => exact Or.inl ⟨_, rfl⟩
  | error msg => exact absurd hloop (herr _ _ _ _)
  | panic => exact Or.inr rfl
  | outOfFuel => exact absurd hloop h

/-- The model of `parseDNSRequest` never exhausts an iteration budget: it ends with a
request, the error, or a panic. -/
theorem parseDNSRequest_terminates (data : Slice) : parseDNSRequest data ≠ .outOfFuel := by
  have hq : ∀ (k offset : Nat) (acc : List DNSQuestion),
      parseQuestions data k offset acc ≠ .outOfFuel := by
    intro k
    induction k with
    | zero => intro offset acc; simp [parseQuestions]
    | succ k ih =>
      intro offset acc
      rw [parseQuestions]
      cases data.sliceFrom offset with
      | none => simp
      | some tail =>
        dsimp only
        rcases parseQName_terminates tail with ⟨⟨qName, n⟩, hr⟩ | hr
        · rw [hr]
          dsimp only
          split
          · simp
          · split
            · simp
            · exact ih _ _
        · rw [hr]
          simp
  unfold parseDNSRequest
  split
  · simp
  · split
    · have := hq ‹Nat› 12 []
      split <;> simp_all
    · simp

/-- Past the header check `parseDNSRequest` has no error return: on 12 bytes or more it
ends with a request or with a panic. -/
theorem parseDNSRequest_no_error (data : Slice) (h : 12 ≤ data.len) (msg : String) :
    parseDNSRequest data ≠ .error msg := by
  have hq : ∀ (k offset : Nat) (acc : List DNSQuestion),
      parseQuestions data k offset acc ≠ .error msg := by
    intro k
    induction k with
    | zero => intro offset acc; simp [parseQuestions]
    | succ k ih =>
      intro offset acc
      rw [parseQuestions]
      cases data.sliceFrom offset with
      | none => simp
      | some tail =>
        dsimp only
        rcases parseQName_terminates tail with ⟨⟨qName, n⟩, hr⟩ | hr
        · rw [hr]
          dsimp only
          split
          · simp
          · split
            · simp
            · exact ih _ _
        · rw [hr]
          simp
  unfold parseDNSRequest
  rw [if_neg (by omega)]
  split
  · have := hq ‹Nat› 12 []
    split <;> simp_all
  · simp

/-! ## Theorems -/

/-- C1: a datagram made of a 12-byte header (any ID, any flags, question count N, any six
further bytes) followed by the wire forms of N well-formed questions decodes to the Query
with the big-endian ID of bytes 0-1, the big-endian flags of bytes 2-3 and exactly those
questions in order, whatever bytes 6-11 hold and whatever lies beyond the slice's length. -/
theorem parseDNSRequest_wellformed (b0 b1 b2 b3 : Nat) (counts : List Nat)
    (qs : List DNSQuestion) (spare : List Nat) (hcounts : counts.length = 6)
    (hq : ∀ q ∈ qs, ValidQuestion q) (hN : qs.length < 65536) :
    parseDNSRequest
        ⟨b0 :: b1 :: b2 :: b3 :: (be16 qs.length ++ counts
          ++ (qs.map DNSQuestion.wire).flatten), spare⟩
      = .ok { ID := b0 * 256 + b1, Flags := b2 * 256 + b3, Questions := qs } := by
  obtain ⟨c0, c1, c2, c3, c4, c5, rfl⟩ : ∃ c0 c1 c2 c3 c4 c5, counts = [c0, c1, c2, c3, c4, c5] := by
    match counts, hcounts with
    | [c0, c1, c2, c3, c4, c5], _ => exact ⟨c0, c1, c2, c3, c4, c5, rfl⟩
  generalize hbody : (qs.map DNSQuestion.wire).flatten = body
  have hid := Slice.uint16_at
    ⟨b0 :: b1 :: b2 :: b3 :: (be16 qs.length ++ [c0, c1, c2, c3, c4, c5] ++ body), spare⟩ []
    (b2 :: b3 :: (be16 qs.length ++ [c0, c1, c2, c3, c4, c5] ++ body) ++ spare) b0 b1
    (by simp [Slice.backing])
  have hflags := Slice.uint16_at
    ⟨b0 :: b1 :: b2 :: b3 :: (be16 qs.length ++ [c0, c1, c2, c3, c4, c5] ++ body), spare⟩ [b0, b1]
    ((be16 qs.length ++ [c0, c1, c2, c3, c4, c5] ++ body) ++ spare) b2 b3
    (by simp [Slice.backing])
  have hcount := Slice.uint16_at
    ⟨b0 :: b1 :: b2 :: b3 :: (be16 qs.length ++ [c0, c1, c2, c3, c4, c5] ++ body), spare⟩
    [b0, b1, b2, b3] (([c0, c1, c2, c3, c4, c5] ++ body) ++ spare) (qs.length / 256 % 256)
    (qs.length % 256) (by simp [Slice.backing, be16])
  have hloop := parseQuestions_wire qs hq
    (b0 :: b1 :: b2 :: b3 :: (be16 qs.length ++ [c0, c1, c2, c3, c4, c5])) [] spare []
  have hdata : b0 :: b1 :: b2 :: b3 :: (be16 qs.length ++ [c0, c1, c2, c3, c4, c5])
      ++ ((qs.map DNSQuestion.wire).flatten ++ [])
      = b0 :: b1 :: b2 :: b3 :: (be16 qs.length ++ [c0, c1, c2, c3, c4, c5] ++ body) := by
    simp [hbody]
  have hlen : (b0 :: b1 :: b2 :: b3 :: (be16 qs.length ++ [c0, c1, c2, c3, c4, c5])).length
      = 12 := by simp [be16]
  rw [hdata, hlen] at hloop
  simp only [List.length_nil, List.length_cons, Nat.zero_add, be16_value _ hN] at hid hflags hcount
  have hnot : ¬ (Slice.len
      ⟨b0 :: b1 :: b2 :: b3 :: (be16 qs.length ++ [c0, c1, c2, c3, c4, c5] ++ body), spare⟩
      < 12) := by
    simp [Slice.len, be16]
  unfold parseDNSRequest
  rw [if_neg hnot]
  simp only [hid, hflags, hcount, hloop, List.nil_append]

/-- Witness for C1: the request `00 07 01 00 00 01 | 00 00 00 00 00 00 | 1 a 2 g o 0 |
00 01 | 00 01` decodes to ID 7, flags 256 and the single question `a.go`. -/
theorem parseDNSRequest_wellformed_witness :
    parseDNSRequest
        ⟨0 :: 7 :: 1 :: 0 :: (be16 [(⟨str "a.go", 1, 1⟩ : DNSQuestion)].length
          ++ [0, 0, 0, 0, 0, 0]
          ++ ([(⟨str "a.go", 1, 1⟩ : DNSQuestion)].map DNSQuestion.wire).flatten), [9, 9]⟩
      = .ok { ID := 0 * 256 + 7, Flags := 1 * 256 + 0, Questions := [⟨str "a.go", 1, 1⟩] } :=
  parseDNSRequest_wellformed 0 7 1 0 [0, 0, 0, 0, 0, 0] [⟨str "a.go", 1, 1⟩] [9, 9] rfl
    (by
      intro q hq
      rw [List.mem_singleton] at hq
      subst hq
      exact ⟨⟨[str "a", str "go"], ⟨by decide, by decide⟩, by decide⟩, by decide, by decide⟩)
    (by decide)

/-- C3: on a slice shorter than 12 bytes `parseDNSRequest` returns the error
`invalid DNS packet` and no request, and `handleDNSRequest` writes nothing to the client. -/
theorem parseDNSRequest_short (parseIPTo4 : Str → List Nat) (s : Server) (data : Slice)
    (h : data.len < 12) :
    parseDNSRequest data = .error "invalid DNS packet"
      ∧ s.handleDNSRequest parseIPTo4 data = .ok [] := by
  have hp : parseDNSRequest data = .error "invalid DNS packet" := by
    unfold parseDNSRequest
    rw [if_pos h]
  refine ⟨hp, ?_⟩
  unfold Server.handleDNSRequest
  rw [hp]

/-- Witness for C3: an 11-byte datagram in a buffer with spare capacity. -/
theorem parseDNSRequest_short_witness :
    Slice.len ⟨[0, 1, 1, 0, 0, 1, 0, 0, 0, 0, 0], [1, 97, 0, 0, 1, 0, 1]⟩ < 12
      ∧ parseDNSRequest ⟨[0, 1, 1, 0, 0, 1, 0, 0, 0, 0, 0], [1, 97, 0, 0, 1, 0, 1]⟩
        = .error "invalid DNS packet"
      ∧ Server.handleDNSRequest (fun _ => []) ⟨53, 300, [], []⟩
          ⟨[0, 1, 1, 0, 0, 1, 0, 0, 0, 0, 0], [1, 97, 0, 0, 1, 0, 1]⟩ = .ok [] :=
  ⟨by decide, parseDNSRequest_short (fun _ => []) ⟨53, 300, [], []⟩
    ⟨[0, 1, 1, 0, 0, 1, 0, 0, 0, 0, 0], [1, 97, 0, 0, 1, 0, 1]⟩ (by decide)⟩

/-- C4: round trip of the label codec.  For a name made of one or more labels of 1 to 63
bytes without a `.` byte, `parseQName` applied to what `writeQName` wrote, followed by any
further bytes, returns the name and the number of bytes written, `len(name) + 2`. -/
theorem parseQName_writeQName (name : Str) (h : ValidName name) (rest spare : List Nat) :
    parseQName ⟨writeQName [] name ++ rest, spare⟩ = .ok (name, name.length + 2)
      ∧ (writeQName [] name).length = name.length + 2 := by
  obtain ⟨labels, hl, rfl⟩ := h
  have hlen : (stringsJoin labels (str ".")).length + 2 = (encodeLabels labels).length + 1 := by
    rw [str_dot]
    exact stringsJoin_length labels hl.1
  rw [writeQName_labels labels hl]
  constructor
  · rw [List.append_assoc, List.singleton_append, parseQName_labels labels hl rest spare, hlen]
  · simp only [List.length_append, List.length_singleton]
    omega

/-- Witness for C4: the name `www.go`, followed by two further bytes. -/
theorem parseQName_writeQName_witness :
    parseQName ⟨writeQName [] (str "www.go") ++ [0, 1], [5]⟩
        = .ok (str "www.go", (str "www.go").length + 2)
      ∧ (writeQName [] (str "www.go")).length = (str "www.go").length + 2 :=
  parseQName_writeQName (str "www.go")
    ⟨[str "www", str "go"], ⟨by decide, by decide⟩, by decide⟩ [0, 1] [5]

/-- C2 (the code departs from the claim): overruns are not reported as errors.  A header
that declares one question and carries none makes `parseQName` index an empty slice, which
panics, whatever the capacity; so do a label running past the end, a name without
terminator and a question count above the questions present.  When the type and class are
missing and the slice has spare capacity, they are read from beyond the end of the input
and a Query is returned. -/
theorem parseDNSRequest_overrun :
    (∀ spare, parseDNSRequest ⟨[0, 1, 1, 0, 0, 1, 0, 0, 0, 0, 0, 0], spare⟩ = .panic)
      ∧ parseDNSRequest ⟨[0, 1, 1, 0, 0, 1, 0, 0, 0, 0, 0, 0, 5, 97], [98, 99, 100, 101, 0]⟩
          = .panic
      ∧ parseDNSRequest ⟨[0, 1, 1, 0, 0, 1, 0, 0, 0, 0, 0, 0, 1, 97], [0, 0, 1, 0, 1]⟩ = .panic
      ∧ parseDNSRequest
          ⟨[0, 1, 1, 0, 0, 2, 0, 0, 0, 0, 0, 0, 1, 97, 0, 0, 1, 0, 1], [1, 98, 0, 0, 1, 0, 1]⟩
          = .panic
      ∧ parseDNSRequest ⟨[0, 1, 1, 0, 0, 1, 0, 0, 0, 0, 0, 0, 1, 97, 0], []⟩ = .panic
      ∧ parseDNSRequest ⟨[0, 1, 1, 0, 0, 1, 0, 0, 0, 0, 0, 0, 1, 97, 0], [0, 28, 0, 3]⟩
          = .ok { ID := 1, Flags := 256, Questions := [⟨[97], 28, 3⟩] } := by
  refine ⟨fun spare => ?_, by decide, by decide, by decide, by decide, by decide⟩
  have h1 := Slice.uint16_at ⟨[0, 1, 1, 0, 0, 1, 0, 0, 0, 0, 0, 0], spare⟩ []
    ([1, 0, 0, 1, 0, 0, 0, 0, 0, 0] ++ spare) 0 1 (by simp [Slice.backing])
  have h2 := Slice.uint16_at ⟨[0, 1, 1, 0, 0, 1, 0, 0, 0, 0, 0, 0], spare⟩ [0, 1]
    ([0, 1, 0, 0, 0, 0, 0, 0] ++ spare) 1 0 (by simp [Slice.backing])
  have h3 := Slice.uint16_at ⟨[0, 1, 1, 0, 0, 1, 0, 0, 0, 0, 0, 0], spare⟩ [0, 1, 1, 0]
    ([0, 0, 0, 0, 0, 0] ++ spare) 0 1 (by simp [Slice.backing])
  have h4 := Slice.sliceFrom_at [0, 1, 1, 0, 0, 1, 0, 0, 0, 0, 0, 0] [] spare
  simp only [List.length_nil, List.length_cons, Nat.zero_add, List.append_nil] at h1 h2 h3 h4
  have h5 : parseQName ⟨[], spare⟩ = .panic := by
    simp [parseQName, parseQNameLoop, Slice.index, Slice.len]
  have hnot : ¬ (Slice.len ⟨[0, 1, 1, 0, 0, 1, 0, 0, 0, 0, 0, 0], spare⟩ < 12) := by
    simp [Slice.len]
  unfold parseDNSRequest
  rw [if_neg hnot]
  simp only [h1, h2, h3]
  rw [show 0 * 256 + 1 = 0 + 1 from rfl, parseQuestions, h4]
  simp only [h5]

/-! ### The response -/

theorem writeQuestion_eq (parseIPTo4 : Str → List Nat)
    (resolver : Str → Str × Nat × Option String) (buffer : List Nat) (q : DNSQuestion) :
    writeQuestion parseIPTo4 resolver buffer q = buffer ++ entryWire parseIPTo4 resolver q := by
  unfold writeQuestion entryWire
  rcases hres : resolver q.Name with ⟨ip, ttl, err⟩
  cases err with
  | none =>
    simp only [binaryWriteUint16, binaryWriteUint32, answerWire, DNSQuestion.wire, questionWire,
      be16, be32]
    rw [writeQName_append buffer q.Name, writeQName_append (_ ++ _) q.Name]
    simp
  | some e =>
    simp only [binaryWriteUint16, DNSQuestion.wire, questionWire, be16]
    rw [writeQName_append buffer q.Name]
    simp

theorem foldl_writeQuestion (parseIPTo4 : Str → List Nat)
    (resolver : Str → Str × Nat × Option String) (qs : List DNSQuestion) (buffer : List Nat) :
    qs.foldl (writeQuestion parseIPTo4 resolver) buffer
      = buffer ++ (qs.map (entryWire parseIPTo4 resolver)).flatten := by
  induction qs generalizing buffer with
  | nil => simp
  | cons q qs ih => rw [List.foldl_cons, ih, writeQuestion_eq]; simp

/-- The response is its 12-byte header followed by one entry per question. -/
theorem createDNSResponse_eq (parseIPTo4 : Str → List Nat) (request : DNSRequest)
    (resolver : Str → Str × Nat × Option String) :
    createDNSResponse parseIPTo4 request resolver
      = (be16 request.ID ++ [129, 128] ++ be16 (request.Questions.length % 65536)
          ++ be16 (request.Questions.length % 65536) ++ [0, 0, 0, 0])
        ++ (request.Questions.map (entryWire parseIPTo4 resolver)).flatten := by
  unfold createDNSResponse
  simp only [foldl_writeQuestion, binaryWriteUint16, be16]
  simp

/-- C5: the first 12 bytes of the response are the transaction ID, the flags `0x8180`, the
question count N, the answer count N, and the authority and additional counts 0, all
big-endian; the answer count is N whatever the resolver returns. -/
theorem createDNSResponse_header (parseIPTo4 : Str → List Nat) (request : DNSRequest)
    (resolver : Str → Str × Nat × Option String) (hN : request.Questions.length ≤ 65535) :
    (createDNSResponse parseIPTo4 request resolver).take 12
      = be16 request.ID ++ [0x81, 0x80] ++ be16 request.Questions.length
          ++ be16 request.Questions.length ++ be16 0 ++ be16 0 := by
  rw [createDNSResponse_eq, Nat.mod_eq_of_lt (by omega)]
  simp [be16]

/-- Witness for C5: two questions, none of which resolves; the answer count is still 2. -/
theorem createDNSResponse_header_witness :
    (createDNSResponse (fun _ => [])
        { ID := 258, Flags := 256, Questions := [⟨str "a.go", 1, 1⟩, ⟨str "b.go", 1, 1⟩] }
        (fun _ => ([], 0, some "record not found"))).take 12
      = be16 258 ++ [0x81, 0x80] ++ be16 2 ++ be16 2 ++ be16 0 ++ be16 0 :=
  createDNSResponse_header (fun _ => [])
    { ID := 258, Flags := 256, Questions := [⟨str "a.go", 1, 1⟩, ⟨str "b.go", 1, 1⟩] }
    (fun _ => ([], 0, some "record not found")) (by decide)

/-- After the 12-byte header the response is, question by question in the original
order, the entry of that question. -/
theorem createDNSResponse_drop_header (parseIPTo4 : Str → List Nat) (request : DNSRequest)
    (resolver : Str → Str × Nat × Option String) :
    (createDNSResponse parseIPTo4 request resolver).drop 12
      = (request.Questions.map (entryWire parseIPTo4 resolver)).flatten := by
  rw [createDNSResponse_eq]
  have hlen : (be16 request.ID ++ [129, 128] ++ be16 (request.Questions.length % 65536)
      ++ be16 (request.Questions.length % 65536) ++ [0, 0, 0, 0]).length = 12 := by
    simp [be16]
  rw [← hlen, List.drop_left]

/-! ### The resolver -/

/-- The zone loop ends in the not-found return exactly when no visited zone matches. -/
theorem resolveZones_notFound (name : Str) (ttl : Nat) (zones : List (Str × Zone)) :
    (resolveZones name ttl zones).2.2 ≠ none
      ↔ ∀ z ∈ zones, z.1 <:+ name → z.2.Records.lookup name = none := by
  induction zones with
  | nil => simp [resolveZones]
  | cons z rest ih =>
    obtain ⟨zoneName, zone⟩ := z
    rw [List.forall_mem_cons]
    unfold resolveZones
    by_cases hs : stringsHasSuffix name zoneName = true
    · have hsuf := (stringsHasSuffix_iff name zoneName).mp hs
      rw [if_pos hs]
      cases hl : zone.Records.lookup name with
      | some ip =>
        dsimp only
        constructor
        · intro h
          exact absurd rfl h
        · intro h
          exact absurd (h.1 hsuf) (by simp)
      | none =>
        dsimp only
        rw [ih]
        exact ⟨fun h => ⟨fun _ => rfl, h⟩, fun h => h.2⟩
    · have hsuf : ¬ zoneName <:+ name := fun h => hs ((stringsHasSuffix_iff name zoneName).mpr h)
      rw [if_neg hs, ih]
      exact ⟨fun h => ⟨fun hs2 => absurd hs2 hsuf, h⟩, fun h => h.2⟩

/-- The zone loop returns either the not-found triple or a record of a matching zone. -/
theorem resolveZones_cases (name : Str) (ttl : Nat) (zones : List (Str × Zone)) :
    resolveZones name ttl zones = ([], 0, some "record not found")
      ∨ ∃ z ∈ zones, ∃ ip, z.1 <:+ name ∧ z.2.Records.lookup name = some ip
          ∧ resolveZones name ttl zones = (ip, ttl, none) := by
  induction zones with
  | nil => exact Or.inl rfl
  | cons z rest ih =>
    obtain ⟨zoneName, zone⟩ := z
    have hrest : resolveZones name ttl rest = ([], 0, some "record not found")
        ∨ ∃ z ∈ (zoneName, zone) :: rest, ∃ ip, z.1 <:+ name ∧ z.2.Records.lookup name = some ip
          ∧ resolveZones name ttl rest = (ip, ttl, none) := by
      rcases ih with h | ⟨z, hz, ip, h1, h2, h3⟩
      · exact Or.inl h
      · exact Or.inr ⟨z, List.mem_cons_of_mem _ hz, ip, h1, h2, h3⟩
    unfold resolveZones
    by_cases hs : stringsHasSuffix name zoneName = true
    · rw [if_pos hs]
      cases hl : zone.Records.lookup name with
      | some ip =>
        exact Or.inr ⟨(zoneName, zone), by simp, ip, (stringsHasSuffix_iff name zoneName).mp hs,
          hl, rfl⟩
      | none => exact hrest
    · rw [if_neg hs]
      exact hrest

/-- C7: a name that is a key of the global table resolves to the global table's address
and the default TTL, whatever the zone table holds. -/
theorem resolveQuery_global (s : Server) (name ip : Str)
    (h : s.Records.lookup name = some ip) :
    s.resolveQuery name = (ip, s.DefaultTTL, none) := by
  unfold Server.resolveQuery
  rw [h]

/-- Witness for C7: `api.example.com` is in the global table and, with another address, in
the zone `example.com`; the global address 10.0.0.5 is returned. -/
theorem resolveQuery_global_witness :
    Server.resolveQuery
        { Port := 53, DefaultTTL := 300,
          Records := [(str "api.example.com", str "10.0.0.5")],
          Zones := [(str "example.com", ⟨[(str "api.example.com", str "10.0.0.9")]⟩)] }
        (str "api.example.com")
      = (str "10.0.0.5", 300, none) :=
  resolveQuery_global
    { Port := 53, DefaultTTL := 300,
      Records := [(str "api.example.com", str "10.0.0.5")],
      Zones := [(str "example.com", ⟨[(str "api.example.com", str "10.0.0.9")]⟩)] }
    (str "api.example.com") (str "10.0.0.5") (by decide)

/-- C8: when the name is no key of the global table and some zone has a key that is a
string suffix of the name and holds the name, the resolver returns no error, the default
TTL, and the address that such a zone maps the name to. -/
theorem resolveQuery_zone (s : Server) (name : Str) (hg : s.Records.lookup name = none)
    (hz : ∃ z ∈ s.Zones, z.1 <:+ name ∧ (z.2.Records.lookup name).isSome = true) :
    ∃ z ∈ s.Zones, ∃ ip, z.1 <:+ name ∧ z.2.Records.lookup name = some ip
      ∧ s.resolveQuery name = (ip, s.DefaultTTL, none) := by
  have hq : s.resolveQuery name = resolveZones name s.DefaultTTL s.Zones := by
    unfold Server.resolveQuery
    rw [hg]
  rw [hq]
  rcases resolveZones_cases name s.DefaultTTL s.Zones with h | h
  · obtain ⟨z, hzm, hsuf, hsome⟩ := hz
    have hnf := (resolveZones_notFound name s.DefaultTTL s.Zones).mp (by rw [h]; simp) z hzm hsuf
    rw [hnf] at hsome
    cases hsome
  · exact h

/-- Witness for C8: the zone `ample.com` matches the name `example.com` in the middle of a
label and serves it. -/
theorem resolveQuery_zone_witness :
    ∃ z ∈ [(str "ample.com", (⟨[(str "example.com", str "10.0.0.9")]⟩ : Zone))], ∃ ip,
      z.1 <:+ str "example.com" ∧ z.2.Records.lookup (str "example.com") = some ip
      ∧ Server.resolveQuery
          { Port := 53, DefaultTTL := 300, Records := [],
            Zones := [(str "ample.com", ⟨[(str "example.com", str "10.0.0.9")]⟩)] }
          (str "example.com")
        = (ip, 300, none) :=
  resolveQuery_zone
    { Port := 53, DefaultTTL := 300, Records := [],
      Zones := [(str "ample.com", ⟨[(str "example.com", str "10.0.0.9")]⟩)] }
    (str "example.com") (by decide)
    ⟨(str "ample.com", ⟨[(str "example.com", str "10.0.0.9")]⟩), by simp,
      ⟨str "ex", by decide⟩, by decide⟩

/-- C9: the resolver returns an error exactly when the name is no key of the global table
and no zone whose key is a string suffix of the name holds the name; the error return is
then the triple `("", 0, "record not found")`.  A record held only by zones whose key is no
suffix of the name is therefore not served. -/
theorem resolveQuery_notFound_iff (s : Server) (name : Str) :
    ((s.resolveQuery name).2.2 ≠ none ↔ NoRecord s name)
      ∧ (s.resolveQuery name = ([], 0, some "record not found") ↔ NoRecord s name) := by
  have key : (s.resolveQuery name).2.2 ≠ none ↔ NoRecord s name := by
    unfold Server.resolveQuery NoRecord
    cases hg : s.Records.lookup name with
    | some ip => simp
    | none => simpa using resolveZones_notFound name s.DefaultTTL s.Zones
  refine ⟨key, ⟨fun h => key.mp (by rw [h]; simp), fun h => ?_⟩⟩
  have herr := key.mpr h
  unfold Server.resolveQuery at herr ⊢
  rw [h.1] at herr ⊢
  rcases resolveZones_cases name s.DefaultTTL s.Zones with h' | ⟨z, _, ip, _, _, h'⟩
  · exact h'
  · rw [h'] at herr
    exact absurd rfl herr

/-! ### The handler -/

/-- A successful question loop appends exactly as many questions as it was asked for. -/
theorem parseQuestions_length (data : Slice) (k offset : Nat) (acc qs : List DNSQuestion)
    (h : parseQuestions data k offset acc = .ok qs) : qs.length = acc.length + k := by
  induction k generalizing offset acc with
  | zero =>
    simp only [parseQuestions, Outcome.ok.injEq] at h
    simp [← h]
  | succ k ih =>
    rw [parseQuestions] at h
    split at h
    · cases h
    · split at h
      · split at h
        · cases h
        · split at h
          · cases h
          · have := ih _ _ h
            simp only [List.length_append, List.length_singleton] at this
            omega
      · cases h
      · cases h
      · cases h

theorem six_of_length (l : List Nat) (h : 6 ≤ l.length) :
    ∃ b0 b1 b2 b3 b4 b5 tl, l = b0 :: b1 :: b2 :: b3 :: b4 :: b5 :: tl := by
  rcases l with _ | ⟨b0, _ | ⟨b1, _ | ⟨b2, _ | ⟨b3, _ | ⟨b4, _ | ⟨b5, tl⟩⟩⟩⟩⟩⟩
  all_goals first
    | exact ⟨_, _, _, _, _, _, _, rfl⟩
    | (simp at h)

/-- What a successful `parseDNSRequest` read from the header. -/
theorem parseDNSRequest_ok_header (data : Slice) (request : DNSRequest)
    (hp : parseDNSRequest data = .ok request) :
    ∃ b0 b1 b2 b3 b4 b5 tl, data.vis = b0 :: b1 :: b2 :: b3 :: b4 :: b5 :: tl
      ∧ request.ID = b0 * 256 + b1 ∧ request.Flags = b2 * 256 + b3
      ∧ request.Questions.length = b4 * 256 + b5 := by
  unfold parseDNSRequest at hp
  by_cases hlen : data.len < 12
  · rw [if_pos hlen] at hp
    cases hp
  · rw [if_neg hlen] at hp
    obtain ⟨vis, spare⟩ := data
    obtain ⟨b0, b1, b2, b3, b4, b5, tl, rfl⟩ := six_of_length vis (by
      simp only [Slice.len] at hlen
      omega)
    have h1 := Slice.uint16_at ⟨b0 :: b1 :: b2 :: b3 :: b4 :: b5 :: tl, spare⟩ []
      (b2 :: b3 :: b4 :: b5 :: tl ++ spare) b0 b1 (by simp [Slice.backing])
    have h2 := Slice.uint16_at ⟨b0 :: b1 :: b2 :: b3 :: b4 :: b5 :: tl, spare⟩ [b0, b1]
      (b4 :: b5 :: tl ++ spare) b2 b3 (by simp [Slice.backing])
    have h3 := Slice.uint16_at ⟨b0 :: b1 :: b2 :: b3 :: b4 :: b5 :: tl, spare⟩ [b0, b1, b2, b3]
      (tl ++ spare) b4 b5 (by simp [Slice.backing])
    simp only [List.length_nil, List.length_cons, Nat.zero_add] at h1 h2 h3
    simp only [h1, h2, h3] at hp
    refine ⟨b0, b1, b2, b3, b4, b5, tl, rfl, ?_⟩
    cases hq : parseQuestions ⟨b0 :: b1 :: b2 :: b3 :: b4 :: b5 :: tl, spare⟩ (b4 * 256 + b5)
        12 [] with
    | ok qs =>
      rw [hq] at hp
      simp only [Outcome.ok.injEq] at hp
      have hl := parseQuestions_length _ _ _ _ _ hq
      subst hp
      exact ⟨rfl, rfl, by simpa using hl⟩
    | error msg => rw [hq] at hp; cases hp
    | panic => rw [hq] at hp; cases hp
    | outOfFuel => rw [hq] at hp; cases hp

/-- C10: when `parseDNSRequest` succeeds on a datagram, the handler writes one response,
`createDNSResponse` of the decoded request and the server's resolver, whose bytes 0-1 are
the datagram's bytes 0-1 and whose bytes 4-5 are the datagram's bytes 4-5. -/
theorem handleDNSRequest_echo (parseIPTo4 : Str → List Nat) (s : Server) (data : Slice)
    (request : DNSRequest) (hb : ∀ b ∈ data.vis, b < 256)
    (hp : parseDNSRequest data = .ok request) :
    s.handleDNSRequest parseIPTo4 data
        = .ok [createDNSResponse parseIPTo4 request s.resolveQuery]
      ∧ (createDNSResponse parseIPTo4 request s.resolveQuery).take 2 = data.vis.take 2
      ∧ ((createDNSResponse parseIPTo4 request s.resolveQuery).drop 4).take 2
          = (data.vis.drop 4).take 2 := by
  obtain ⟨b0, b1, b2, b3, b4, b5, tl, hvis, hid, -, hcount⟩ :=
    parseDNSRequest_ok_header data request hp
  have hb0 : b0 < 256 := hb b0 (by simp [hvis])
  have hb1 : b1 < 256 := hb b1 (by simp [hvis])
  have hb4 : b4 < 256 := hb b4 (by simp [hvis])
  have hb5 : b5 < 256 := hb b5 (by simp [hvis])
  have e0 : (b0 * 256 + b1) / 256 % 256 = b0 := by omega
  have e1 : (b0 * 256 + b1) % 256 = b1 := by omega
  have e4 : (b4 * 256 + b5) % 65536 / 256 % 256 = b4 := by omega
  have e5 : (b4 * 256 + b5) % 65536 % 256 = b5 := by omega
  refine ⟨?_, ?_, ?_⟩
  · unfold Server.handleDNSRequest
    rw [hp]
  · rw [createDNSResponse_eq, hvis, hid]
    simp [be16, e0, e1]
  · rw [createDNSResponse_eq, hvis, hcount]
    simp [be16, e4, e5]

/-- Witness for C10: a request for `a` with ID `0xBEEF`. -/
theorem handleDNSRequest_echo_witness :
    Server.handleDNSRequest (fun _ => []) ⟨53, 300, [], []⟩
        ⟨[190, 239, 1, 0, 0, 1, 0, 0, 0, 0, 0, 0, 1, 97, 0, 0, 1, 0, 1], []⟩
        = .ok [createDNSResponse (fun _ => []) ⟨48879, 256, [⟨[97], 1, 1⟩]⟩
            (Server.resolveQuery ⟨53, 300, [], []⟩)]
      ∧ (createDNSResponse (fun _ => []) ⟨48879, 256, [⟨[97], 1, 1⟩]⟩
            (Server.resolveQuery ⟨53, 300, [], []⟩)).take 2
          = (Slice.vis ⟨[190, 239, 1, 0, 0, 1, 0, 0, 0, 0, 0, 0, 1, 97, 0, 0, 1, 0, 1], []⟩).take 2
      ∧ ((createDNSResponse (fun _ => []) ⟨48879, 256, [⟨[97], 1, 1⟩]⟩
            (Server.resolveQuery ⟨53, 300, [], []⟩)).drop 4).take 2
          = ((Slice.vis
              ⟨[190, 239, 1, 0, 0, 1, 0, 0, 0, 0, 0, 0, 1, 97, 0, 0, 1, 0, 1], []⟩).drop 4).take 2 :=
  handleDNSRequest_echo (fun _ => []) ⟨53, 300, [], []⟩
    ⟨[190, 239, 1, 0, 0, 1, 0, 0, 0, 0, 0, 0, 1, 97, 0, 0, 1, 0, 1], []⟩
    ⟨48879, 256, [⟨[97], 1, 1⟩]⟩ (by decide) (by decide)

/-! ### Order of the zone iteration -/

/-- The zone loop gives the same TTL and error for every order of the zones, and the same
address too when all matching zones agree on it. -/
theorem resolveZones_perm (name : Str) (ttl : Nat) (zones1 zones2 : List (Str × Zone))
    (hperm : zones1.Perm zones2) :
    (resolveZones name ttl zones1).2 = (resolveZones name ttl zones2).2
      ∧ ((∀ z1 ∈ zones2, ∀ z2 ∈ zones2, ∀ ip1 ip2, z1.1 <:+ name → z2.1 <:+ name →
            z1.2.Records.lookup name = some ip1 → z2.2.Records.lookup name = some ip2 →
            ip1 = ip2) →
          resolveZones name ttl zones1 = resolveZones name ttl zones2) := by
  have hnf1 := resolveZones_notFound name ttl zones1
  have hnf2 := resolveZones_notFound name ttl zones2
  have hiff : (∀ z ∈ zones1, z.1 <:+ name → z.2.Records.lookup name = none)
      ↔ (∀ z ∈ zones2, z.1 <:+ name → z.2.Records.lookup name = none) :=
    ⟨fun h z hz => h z (hperm.mem_iff.mpr hz), fun h z hz => h z (hperm.mem_iff.mp hz)⟩
  rcases resolveZones_cases name ttl zones1 with h1 | ⟨za, hza, ipa, hsa, hla, h1⟩ <;>
    rcases resolveZones_cases name ttl zones2 with h2 | ⟨zb, hzb, ipb, hsb, hlb, h2⟩
  · rw [h1, h2]
    exact ⟨rfl, fun _ => rfl⟩
  · have : (resolveZones name ttl zones2).2.2 ≠ none :=
      hnf2.mpr (hiff.mp (hnf1.mp (by rw [h1]; simp)))
    rw [h2] at this
    exact absurd rfl this
  · have : (resolveZones name ttl zones1).2.2 ≠ none :=
      hnf1.mpr (hiff.mpr (hnf2.mp (by rw [h2]; simp)))
    rw [h1] at this
    exact absurd rfl this
  · rw [h1, h2]
    refine ⟨rfl, fun hagree => ?_⟩
    rw [hagree za (hperm.mem_iff.mp hza) zb hzb ipa ipb hsa hsb hla hlb]

/-- C17: for every server and name, the error and the TTL that `resolveQuery` returns are
the same for every order in which the zone table is iterated, and so is the address when
all zones whose key is a suffix of the name and that hold the name map it to one address. -/
theorem resolveQuery_order (s : Server) (name : Str) (zones : List (Str × Zone))
    (hperm : zones.Perm s.Zones) :
    (Server.resolveQuery { s with Zones := zones } name).2 = (s.resolveQuery name).2
      ∧ ((∀ z1 ∈ s.Zones, ∀ z2 ∈ s.Zones, ∀ ip1 ip2, z1.1 <:+ name → z2.1 <:+ name →
            z1.2.Records.lookup name = some ip1 → z2.2.Records.lookup name = some ip2 →
            ip1 = ip2) →
          Server.resolveQuery { s with Zones := zones } name = s.resolveQuery name) := by
  unfold Server.resolveQuery
  cases hg : s.Records.lookup name with
  | some ip => exact ⟨rfl, fun _ => rfl⟩
  | none => exact resolveZones_perm name s.DefaultTTL zones s.Zones hperm

/-- Witness for C17: the zones `example.com` and `ample.com` both hold `db.example.com`,
with different addresses; swapping them leaves the TTL and the nil error unchanged. -/
theorem resolveQuery_order_witness :
    (Server.resolveQuery
        { ({ Port := 53, DefaultTTL := 300, Records := [],
             Zones := [(str "example.com", ⟨[(str "db.example.com", str "10.0.0.9")]⟩),
               (str "ample.com", ⟨[(str "db.example.com", str "10.0.0.7")]⟩)] } : Server) with
          Zones := [(str "ample.com", ⟨[(str "db.example.com", str "10.0.0.7")]⟩),
            (str "example.com", ⟨[(str "db.example.com", str "10.0.0.9")]⟩)] }
        (str "db.example.com")).2
      = (Server.resolveQuery
          { Port := 53, DefaultTTL := 300, Records := [],
            Zones := [(str "example.com", ⟨[(str "db.example.com", str "10.0.0.9")]⟩),
              (str "ample.com", ⟨[(str "db.example.com", str "10.0.0.7")]⟩)] }
          (str "db.example.com")).2 :=
  (resolveQuery_order
    { Port := 53, DefaultTTL := 300, Records := [],
      Zones := [(str "example.com", ⟨[(str "db.example.com", str "10.0.0.9")]⟩),
        (str "ample.com", ⟨[(str "db.example.com", str "10.0.0.7")]⟩)] }
    (str "db.example.com")
    [(str "ample.com", ⟨[(str "db.example.com", str "10.0.0.7")]⟩),
      (str "example.com", ⟨[(str "db.example.com", str "10.0.0.9")]⟩)]
    (List.Perm.swap _ _ _)).1

/-! ### What lies beyond the received bytes -/

set_option maxRecDepth 100000 in
/-- C16 (the code departs from the claim): two contents of the 512-byte receive buffer
that agree on the first 15 positions, a header declaring one question and the name `a`,
decode as `buffer[:15]` to different requests: type and class are read from positions 15
to 18, beyond the received bytes. -/
theorem parseDNSRequest_reads_stale_bytes :
    ([0, 1, 1, 0, 0, 1, 0, 0, 0, 0, 0, 0, 1, 97, 0] ++ [0, 28, 0, 3]
          ++ List.replicate 493 0).length = 512
      ∧ ([0, 1, 1, 0, 0, 1, 0, 0, 0, 0, 0, 0, 1, 97, 0] ++ [0, 1, 0, 1]
          ++ List.replicate 493 0).length = 512
      ∧ ([0, 1, 1, 0, 0, 1, 0, 0, 0, 0, 0, 0, 1, 97, 0] ++ [0, 28, 0, 3]
          ++ List.replicate 493 0).take 15
        = ([0, 1, 1, 0, 0, 1, 0, 0, 0, 0, 0, 0, 1, 97, 0] ++ [0, 1, 0, 1]
          ++ List.replicate 493 0).take 15
      ∧ parseDNSRequest (bufferPrefix ([0, 1, 1, 0, 0, 1, 0, 0, 0, 0, 0, 0, 1, 97, 0]
          ++ [0, 28, 0, 3] ++ List.replicate 493 0) 15)
        = .ok { ID := 1, Flags := 256, Questions := [⟨[97], 28, 3⟩] }
      ∧ parseDNSRequest (bufferPrefix ([0, 1, 1, 0, 0, 1, 0, 0, 0, 0, 0, 0, 1, 97, 0]
          ++ [0, 1, 0, 1] ++ List.replicate 493 0) 15)
        = .ok { ID := 1, Flags := 256, Questions := [⟨[97], 1, 1⟩] } := by
  refine ⟨by simp, by simp, by rfl, by decide, by decide⟩

/-! ### Number of iterations of `parseQName` -/

/-- Two budgets that both leave room for the bytes still ahead give the same result. -/
theorem parseQNameLoop_budget (data : Slice) (f F : Nat) (acc : List Str) (offset : Nat)
    (hf : 1 ≤ f) (hF : 1 ≤ F) (h1 : data.len + 2 ≤ 2 * f + offset)
    (h2 : data.len + 2 ≤ 2 * F + offset) :
    parseQNameLoop data f acc offset = parseQNameLoop data F acc offset := by
  induction f generalizing F acc offset with
  | zero => omega
  | succ f ih =>
    obtain ⟨G, rfl⟩ : ∃ G, F = G + 1 := ⟨F - 1, by omega⟩
    rw [parseQNameLoop, parseQNameLoop]
    cases hidx : data.index offset with
    | none => rfl
    | some length =>
      have hlt : offset < data.len := by
        by_contra hge
        rw [Slice.index_eq_none data offset (by omega)] at hidx
        cases hidx
      by_cases hz : length = 0
      · simp [hz]
      · simp only [if_neg hz]
        cases data.slice (offset + 1) (offset + 1 + length) with
        | none => rfl
        | some part =>
          exact ih G _ _ (by omega) (by omega) (by omega) (by omega)

/-- A loop that leaves through `break` does so within any budget of half the bytes still
ahead, rounded up. -/
theorem parseQNameLoop_ok_budget (data : Slice) (f F : Nat) (acc : List Str) (offset : Nat)
    (r : List Str × Nat) (h1 : data.len + 1 ≤ 2 * f + offset)
    (hF : parseQNameLoop data F acc offset = .ok r) :
    parseQNameLoop data f acc offset = .ok r := by
  induction F generalizing f acc offset with
  | zero => simp [parseQNameLoop] at hF
  | succ G ih =>
    rw [parseQNameLoop] at hF
    cases hidx : data.index offset with
    | none => rw [hidx] at hF; cases hF
    | some length =>
      rw [hidx] at hF
      have hlt : offset < data.len := by
        by_contra hge
        rw [Slice.index_eq_none data offset (by omega)] at hidx
        cases hidx
      obtain ⟨g, rfl⟩ : ∃ g, f = g + 1 := ⟨f - 1, by omega⟩
      rw [parseQNameLoop, hidx]
      by_cases hz : length = 0
      · simpa [hz] using hF
      · simp only [if_neg hz] at hF ⊢
        cases hsl : data.slice (offset + 1) (offset + 1 + length) with
        | none => rw [hsl] at hF; cases hF
        | some part =>
          rw [hsl] at hF
          exact ih g _ _ (by omega) hF

/-- C18: `parseQName` terminates on every slice.  A pass through its loop ends in a panic,
leaves at a zero length byte, or reads a length of at least 1 and goes on with the cursor
moved by that length plus one, at least 2.  So either the loop returns at a zero length
byte within `len(data)/2 + 1` passes, or the panic that ends it off the end of the input
comes after at most `len(data)/2 + 1` such passes. -/
theorem parseQName_iterations (data : Slice) :
    (∀ (fuel : Nat) (acc : List Str) (offset : Nat),
        parseQNameLoop data (fuel + 1) acc offset = .panic
          ∨ parseQNameLoop data (fuel + 1) acc offset = .ok (acc, offset)
          ∨ ∃ length part, 1 ≤ length ∧ data.index offset = some length
              ∧ data.slice (offset + 1) (offset + 1 + length) = some part
              ∧ offset + 2 ≤ offset + 1 + length
              ∧ parseQNameLoop data (fuel + 1) acc offset
                = parseQNameLoop data fuel (acc ++ [part.vis]) (offset + 1 + length))
      ∧ ((∃ nameParts offset,
            parseQNameLoop data (data.len / 2 + 1) [] 0 = .ok (nameParts, offset)
              ∧ parseQName data = .ok (stringsJoin nameParts (str "."), offset + 1))
          ∨ (parseQNameLoop data (data.len / 2 + 2) [] 0 = .panic
              ∧ parseQName data = .panic)) := by
  constructor
  · intro fuel acc offset
    rw [parseQNameLoop]
    cases hidx : data.index offset with
    | none => exact Or.inl rfl
    | some length =>
      by_cases hz : length = 0
      · exact Or.inr (Or.inl (by simp [hz]))
      · simp only [if_neg hz]
        cases hsl : data.slice (offset + 1) (offset + 1 + length) with
        | none => exact Or.inl rfl
        | some part =>
          exact Or.inr (Or.inr ⟨length, part, by omega, rfl, hsl, by omega, rfl⟩)
  · rcases parseQName_terminates data with ⟨r, hr⟩ | hp
    · left
      unfold parseQName at hr
      cases hloop : parseQNameLoop data (data.len + 1) [] 0 with
      | ok res =>
        obtain ⟨nameParts, offset⟩ := res
        refine ⟨nameParts, offset,
          parseQNameLoop_ok_budget data _ _ [] 0 _ (by omega) hloop, ?_⟩
        unfold parseQName
        rw [hloop]
      | error msg => rw [hloop] at hr; cases hr
      | panic => rw [hloop] at hr; cases hr
      | outOfFuel => rw [hloop] at hr; cases hr
    · right
      refine ⟨?_, hp⟩
      rw [parseQNameLoop_budget data (data.len / 2 + 2) (data.len + 1) [] 0 (by omega)
        (by omega) (by omega) (by omega)]
      unfold parseQName at hp
      cases hloop : parseQNameLoop data (data.len + 1) [] 0 with
      | ok res => rw [hloop] at hp; cases hp
      | error msg => rw [hloop] at hp; cases hp
      | panic => rfl
      | outOfFuel => rw [hloop] at hp; cases hp

/-! ### Decoding any question on the wire -/

/-- Decoding an encoded name that starts the slice: the labels need not be free of `.`
bytes and there may be none of them. -/
theorem parseQName_encodeLabels (labels : List Str) (h : ∀ l ∈ labels, 1 ≤ l.length)
    (post spare : List Nat) :
    parseQName ⟨encodeLabels labels ++ 0 :: post, spare⟩
      = .ok (stringsJoin labels (str "."), (encodeLabels labels).length + 1) := by
  have hloop := parseQNameLoop_labels labels h [] post spare []
    ((encodeLabels labels ++ 0 :: post).length + 1)
    (by have := encodeLabels_length_ge labels; simp; omega)
  simp only [List.nil_append, List.length_nil, Nat.zero_add] at hloop
  unfold parseQName
  simp only [Slice.len]
  rw [hloop]

/-- The question loop of `parseDNSRequest` run over questions as they stand on the wire. -/
theorem parseQuestions_wireBytes (ws : List WireQuestion) (hw : ∀ w ∈ ws, w.OnWire)
    (pre post spare : List Nat) (acc : List DNSQuestion) :
    parseQuestions ⟨pre ++ ((ws.map WireQuestion.bytes).flatten ++ post), spare⟩ ws.length
      pre.length acc = .ok (acc ++ ws.map WireQuestion.decoded) := by
  induction ws generalizing pre acc with
  | nil => simp [parseQuestions]
  | cons w ws ih =>
    obtain ⟨labels, t, c⟩ := w
    obtain ⟨hl, ht, hc⟩ := hw (labels, t, c) (by simp)
    simp only at hl ht hc
    generalize hrest : (ws.map WireQuestion.bytes).flatten ++ post = rest at ih
    have hdata : pre ++ ((((labels, t, c) :: ws).map WireQuestion.bytes).flatten ++ post)
        = pre ++ (encodeLabels labels
          ++ 0 :: t / 256 % 256 :: t % 256 :: c / 256 % 256 :: c % 256 :: rest) := by
      simp [WireQuestion.bytes, be16, ← hrest]
    rw [hdata]
    have htail := Slice.sliceFrom_at pre (encodeLabels labels
      ++ 0 :: t / 256 % 256 :: t % 256 :: c / 256 % 256 :: c % 256 :: rest) spare
    have hname := parseQName_encodeLabels labels (fun l hm => (hl l hm).1)
      (t / 256 % 256 :: t % 256 :: c / 256 % 256 :: c % 256 :: rest) spare
    have htype := Slice.uint16_at ⟨pre ++ (encodeLabels labels
      ++ 0 :: t / 256 % 256 :: t % 256 :: c / 256 % 256 :: c % 256 :: rest), spare⟩
      (pre ++ (encodeLabels labels ++ [0])) (c / 256 % 256 :: c % 256 :: rest ++ spare)
      (t / 256 % 256) (t % 256) (by simp [Slice.backing])
    have hclass := Slice.uint16_at ⟨pre ++ (encodeLabels labels
      ++ 0 :: t / 256 % 256 :: t % 256 :: c / 256 % 256 :: c % 256 :: rest), spare⟩
      (pre ++ (encodeLabels labels ++ [0, t / 256 % 256, t % 256])) (rest ++ spare)
      (c / 256 % 256) (c % 256) (by simp [Slice.backing])
    have ho1 : (pre ++ (encodeLabels labels ++ [0])).length
        = pre.length + ((encodeLabels labels).length + 1) := by simp
    have ho2 : (pre ++ (encodeLabels labels ++ [0, t / 256 % 256, t % 256])).length
        = pre.length + ((encodeLabels labels).length + 1) + 2 := by simp; omega
    rw [ho1] at htype
    rw [ho2] at hclass
    have hrec := ih (fun x hx => hw x (List.mem_cons_of_mem _ hx))
      (pre ++ (encodeLabels labels
        ++ 0 :: t / 256 % 256 :: t % 256 :: c / 256 % 256 :: [c % 256]))
      (acc ++ [WireQuestion.decoded (labels, t, c)])
    have ho3 : (pre ++ (encodeLabels labels
        ++ 0 :: t / 256 % 256 :: t % 256 :: c / 256 % 256 :: [c % 256])).length
        = pre.length + ((encodeLabels labels).length + 1) + 2 + 2 := by simp; omega
    have hd3 : (pre ++ (encodeLabels labels
        ++ 0 :: t / 256 % 256 :: t % 256 :: c / 256 % 256 :: [c % 256])) ++ rest
        = pre ++ (encodeLabels labels
          ++ 0 :: t / 256 % 256 :: t % 256 :: c / 256 % 256 :: c % 256 :: rest) := by
      simp
    rw [ho3, hd3] at hrec
    rw [List.length_cons, parseQuestions, htail]
    simp only [hname, htype, hclass, be16_value _ ht, be16_value _ hc]
    simpa [WireQuestion.decoded] using hrec

/-- A datagram made of a header, questions as they stand on the wire and any further bytes
decodes to those questions. -/
theorem parseDNSRequest_wireBytes (b0 b1 b2 b3 : Nat) (counts : List Nat)
    (ws : List WireQuestion) (post spare : List Nat) (hcounts : counts.length = 6)
    (hw : ∀ w ∈ ws, w.OnWire) (hN : ws.length < 65536) :
    parseDNSRequest
        ⟨b0 :: b1 :: b2 :: b3 :: (be16 ws.length ++ counts
          ++ ((ws.map WireQuestion.bytes).flatten ++ post)), spare⟩
      = .ok { ID := b0 * 256 + b1, Flags := b2 * 256 + b3,
              Questions := ws.map WireQuestion.decoded } := by
  obtain ⟨c0, c1, c2, c3, c4, c5, rfl⟩ :
      ∃ c0 c1 c2 c3 c4 c5, counts = [c0, c1, c2, c3, c4, c5] := by
    match counts, hcounts with
    | [c0, c1, c2, c3, c4, c5], _ => exact ⟨c0, c1, c2, c3, c4, c5, rfl⟩
  generalize hbody : (ws.map WireQuestion.bytes).flatten ++ post = body
  have hid := Slice.uint16_at
    ⟨b0 :: b1 :: b2 :: b3 :: (be16 ws.length ++ [c0, c1, c2, c3, c4, c5] ++ body), spare⟩ []
    (b2 :: b3 :: (be16 ws.length ++ [c0, c1, c2, c3, c4, c5] ++ body) ++ spare) b0 b1
    (by simp [Slice.backing])
  have hflags := Slice.uint16_at
    ⟨b0 :: b1 :: b2 :: b3 :: (be16 ws.length ++ [c0, c1, c2, c3, c4, c5] ++ body), spare⟩ [b0, b1]
    ((be16 ws.length ++ [c0, c1, c2, c3, c4, c5] ++ body) ++ spare) b2 b3
    (by simp [Slice.backing])
  have hcount := Slice.uint16_at
    ⟨b0 :: b1 :: b2 :: b3 :: (be16 ws.length ++ [c0, c1, c2, c3, c4, c5] ++ body), spare⟩
    [b0, b1, b2, b3] (([c0, c1, c2, c3, c4, c5] ++ body) ++ spare) (ws.length / 256 % 256)
    (ws.length % 256) (by simp [Slice.backing, be16])
  have hloop := parseQuestions_wireBytes ws hw
    (b0 :: b1 :: b2 :: b3 :: (be16 ws.length ++ [c0, c1, c2, c3, c4, c5])) post spare []
  have hdata : b0 :: b1 :: b2 :: b3 :: (be16 ws.length ++ [c0, c1, c2, c3, c4, c5])
      ++ ((ws.map WireQuestion.bytes).flatten ++ post)
      = b0 :: b1 :: b2 :: b3 :: (be16 ws.length ++ [c0, c1, c2, c3, c4, c5] ++ body) := by
    simp [hbody]
  have hlen : (b0 :: b1 :: b2 :: b3 :: (be16 ws.length ++ [c0, c1, c2, c3, c4, c5])).length
      = 12 := by simp [be16]
  rw [hdata, hlen] at hloop
  simp only [List.length_nil, List.length_cons, Nat.zero_add, be16_value _ hN] at hid hflags hcount
  have hnot : ¬ (Slice.len
      ⟨b0 :: b1 :: b2 :: b3 :: (be16 ws.length ++ [c0, c1, c2, c3, c4, c5] ++ body), spare⟩
      < 12) := by
    simp [Slice.len, be16]
  unfold parseDNSRequest
  rw [if_neg hnot]
  simp only [hid, hflags, hcount, hloop, List.nil_append]

theorem encodeLabels_eq_of_le (labels : List Str) (h : ∀ l ∈ labels, l.length ≤ 255) :
    (labels.map fun p => (p.length % 256) :: p).flatten = encodeLabels labels := by
  induction labels with
  | nil => rfl
  | cons l ls ih =>
    have hl : l.length % 256 = l.length := Nat.mod_eq_of_lt (by have := h l (by simp); omega)
    simp [encodeLabels, hl, ih (fun x hx => h x (List.mem_cons_of_mem _ hx))]

/-- For a plain question on the wire, `writeQName`, type and class give back its bytes. -/
theorem WireQuestion.decoded_wire (w : WireQuestion) (hw : w.OnWire) (hp : w.Plain) :
    w.decoded.wire = w.bytes := by
  obtain ⟨labels, t, c⟩ := w
  have hname : writeQName [] (stringsJoin labels (str ".")) = encodeLabels labels ++ [0] := by
    rw [str_dot]
    unfold writeQName
    rw [stringsSplit_stringsJoin labels 46 hp.1 hp.2, writeQName_foldl,
      encodeLabels_eq_of_le labels (fun l hl => (hw.1 l hl).2)]
    simp
  simp [DNSQuestion.wire, questionWire, WireQuestion.decoded, WireQuestion.bytes, hname]

/-! ### Answers -/

example : netParseIPTo4 (fun _ => []) (str "10.0.0.5") = [10, 0, 0, 5] := by decide
example : netParseIPTo4 (fun _ => []) (str "10.0.0.256") = [] := by decide
example : netParseIPTo4 (fun _ => []) (str "10.0.0") = [] := by decide
example : netParseIPTo4 (fun _ => []) (str "10.0.0.05") = [] := by decide
example : netParseIPTo4 (fun _ => []) (str "1.2.3.4.") = [] := by decide
example : netParseIPTo4 (fun _ => []) (str "not-an-ip") = [] := by decide
example (parseIPv6To4 : Str → List Nat) :
    netParseIPTo4 parseIPv6To4 (str "::ffff:10.0.0.5") = parseIPv6To4 (str "::ffff:10.0.0.5") :=
  rfl
example (parseIPv6To4 : Str → List Nat) :
    netParseIPTo4 parseIPv6To4 (str "10.0.0.5:53") = [] := rfl
example : dottedQuad 10 0 0 5 = str "10.0.0.5" := by decide
example : dottedQuad 192 168 17 255 = str "192.168.17.255" := by decide

/-- Reading the decimal digits of an octet leaves the octet in `val`. -/
theorem parseIPv4Loop_decimal (n : Nat) (hn : n < 256) (rest : Str) (prev : Option Nat)
    (fields : List Nat) :
    ∃ p digLen, 48 ≤ p ∧ parseIPv4Loop (decimal n ++ rest) prev fields 0 0
      = parseIPv4Loop rest (some p) fields n digLen := by
  unfold decimal
  by_cases h1 : n < 10
  · refine ⟨48 + n, 1, by omega, ?_⟩
    rw [if_pos h1]
    simp only [List.singleton_append, parseIPv4Loop]
    rw [if_pos (by omega), if_neg (by omega), if_neg (by omega)]
    congr 1
    omega
  · by_cases h2 : n < 100
    · refine ⟨48 + n % 10, 2, by omega, ?_⟩
      rw [if_neg h1, if_pos h2]
      simp only [List.cons_append, List.nil_append, parseIPv4Loop]
      rw [if_pos (by omega), if_neg (by omega), if_neg (by omega), if_pos (by omega),
        if_neg (by omega), if_neg (by omega)]
      congr 1
      omega
    · refine ⟨48 + n % 10, 3, by omega, ?_⟩
      rw [if_neg h1, if_neg h2]
      simp only [List.cons_append, List.nil_append, parseIPv4Loop]
      rw [if_pos (by omega), if_neg (by omega), if_neg (by omega), if_pos (by omega),
        if_neg (by omega), if_neg (by omega), if_pos (by omega), if_neg (by omega),
        if_neg (by omega)]
      congr 1
      omega

theorem decimal_ne_nil (n : Nat) : decimal n ≠ [] := by
  unfold decimal
  split
  · simp
  · split <;> simp

/-- Dotted-quad text is read along the dotted-decimal path. -/
theorem parseAddrFirst_decimal (n : Nat) (hn : n < 256) (rest : Str) :
    parseAddrFirst (decimal n ++ 46 :: rest) = some 46 := by
  unfold decimal
  by_cases h1 : n < 10
  · rw [if_pos h1]
    simp only [List.singleton_append, parseAddrFirst]
    rw [if_neg (by omega)]
    simp
  · by_cases h2 : n < 100
    · rw [if_neg h1, if_pos h2]
      simp only [List.cons_append, List.nil_append, parseAddrFirst]
      rw [if_neg (by omega), if_neg (by omega)]
      simp
    · rw [if_neg h1, if_neg h2]
      simp only [List.cons_append, List.nil_append, parseAddrFirst]
      rw [if_neg (by omega), if_neg (by omega), if_neg (by omega)]
      simp

/-- The model of `net.ParseIP(s).To4()` reads the dotted-quad text `a.b.c.d` as the bytes
`a`, `b`, `c`, `d`, whatever the library does with IPv6 text. -/
theorem netParseIPTo4_dottedQuad (parseIPv6To4 : Str → List Nat) (a b c d : Nat)
    (ha : a < 256) (hb : b < 256) (hc : c < 256) (hd : d < 256) :
    netParseIPTo4 parseIPv6To4 (dottedQuad a b c d) = [a, b, c, d] := by
  have hfirst : parseAddrFirst (dottedQuad a b c d) = some 46 := by
    unfold dottedQuad
    exact parseAddrFirst_decimal a ha _
  unfold netParseIPTo4
  rw [hfirst]
  simp only [if_true]
  have hdot : ∀ (cs : Str) (p : Nat) (fields : List Nat) (val digLen : Nat), 48 ≤ p →
      cs ≠ [] → fields.length < 3 →
      parseIPv4Loop (46 :: cs) (some p) fields val digLen
        = parseIPv4Loop cs (some 46) (fields ++ [val % 256]) 0 0 := by
    intro cs p fields val digLen hp hcs hf
    rw [parseIPv4Loop, if_neg (by omega), if_pos rfl, if_neg, if_neg (by omega)]
    simp only [reduceCtorEq, hcs, Option.some.injEq, false_or, not_false_eq_true]
    omega
  unfold dottedQuad
  obtain ⟨pa, la, hpa, ea⟩ := parseIPv4Loop_decimal a ha
    (46 :: (decimal b ++ 46 :: (decimal c ++ 46 :: decimal d))) none []
  obtain ⟨pb, lb, hpb, eb⟩ := parseIPv4Loop_decimal b hb
    (46 :: (decimal c ++ 46 :: decimal d)) (some 46) ([] ++ [a % 256])
  obtain ⟨pc, lc, hpc, ec⟩ := parseIPv4Loop_decimal c hc
    (46 :: decimal d) (some 46) ([] ++ [a % 256] ++ [b % 256])
  obtain ⟨pd, ld, hpd, ed⟩ := parseIPv4Loop_decimal d hd
    [] (some 46) ([] ++ [a % 256] ++ [b % 256] ++ [c % 256])
  rw [List.append_nil] at ed
  rw [ea, hdot _ pa _ _ _ hpa (by simp) (by simp), eb,
    hdot _ pb _ _ _ hpb (by simp) (by simp), ec,
    hdot _ pc _ _ _ hpc (decimal_ne_nil d) (by simp), ed, parseIPv4Loop]
  simp [Nat.mod_eq_of_lt ha, Nat.mod_eq_of_lt hb, Nat.mod_eq_of_lt hc, Nat.mod_eq_of_lt hd]

/-- C11: for a request with one well-formed question whose name the global table maps to
text that the library reads as the IPv4 address `a.b.c.d`, the handler writes one response:
the header, the question, and one answer record whose TTL field is the default TTL in four
big-endian bytes and whose RDATA is the four bytes `a`, `b`, `c`, `d`. -/
theorem handleDNSRequest_global_answer (parseIPTo4 : Str → List Nat) (s : Server)
    (b0 b1 b2 b3 : Nat) (counts : List Nat) (q : DNSQuestion) (spare : List Nat) (ip : Str)
    (a b c d : Nat) (hcounts : counts.length = 6) (hq : ValidQuestion q)
    (hg : s.Records.lookup q.Name = some ip) (hip : parseIPTo4 ip = [a, b, c, d]) :
    s.handleDNSRequest parseIPTo4 ⟨b0 :: b1 :: b2 :: b3 :: (be16 1 ++ counts ++ q.wire), spare⟩
      = .ok [be16 (b0 * 256 + b1) ++ [0x81, 0x80] ++ be16 1 ++ be16 1 ++ be16 0 ++ be16 0
          ++ q.wire
          ++ (q.wire ++ be32 s.DefaultTTL ++ [0, 4] ++ [a, b, c, d])] := by
  obtain ⟨⟨labels, hl, hn⟩, ht, hc⟩ := hq
  have hw : WireQuestion.OnWire (labels, q.QType, q.QClass) :=
    ⟨fun l hm => ⟨(hl.2 l hm).1, by have := (hl.2 l hm).2.1; omega⟩, ht, hc⟩
  have hp : WireQuestion.Plain (labels, q.QType, q.QClass) :=
    ⟨hl.1, fun l hm => (hl.2 l hm).2.2⟩
  have hdec : WireQuestion.decoded (labels, q.QType, q.QClass) = q := by
    simp [WireQuestion.decoded, ← hn]
  have hwire := WireQuestion.decoded_wire (labels, q.QType, q.QClass) hw hp
  rw [hdec] at hwire
  have hparse := parseDNSRequest_wireBytes b0 b1 b2 b3 counts [(labels, q.QType, q.QClass)]
    [] spare hcounts (by simpa using hw) (by simp)
  have hdata : b0 :: b1 :: b2 :: b3 :: (be16 [(labels, q.QType, q.QClass)].length ++ counts
      ++ (([(labels, q.QType, q.QClass)].map WireQuestion.bytes).flatten ++ []))
      = b0 :: b1 :: b2 :: b3 :: (be16 1 ++ counts ++ q.wire) := by
    simp [hwire]
  rw [hdata] at hparse
  have hres : s.resolveQuery q.Name = (ip, s.DefaultTTL, none) := by
    unfold Server.resolveQuery
    rw [hg]
  unfold Server.handleDNSRequest
  rw [hparse]
  simp only [List.map_cons, List.map_nil, hdec, createDNSResponse_eq, entryWire, hres,
    answerWire, hip, DNSQuestion.wire, questionWire, be16]
  simp

/-- Witness for C11: global record `api.example.com -> 10.0.0.5`, default TTL 300; the
answer record ends with `00 00 01 2C 00 04 0A 00 00 05`. -/
theorem handleDNSRequest_global_answer_witness :
    Server.handleDNSRequest (netParseIPTo4 (fun _ => []))
        { Port := 53, DefaultTTL := 300,
          Records := [(str "api.example.com", str "10.0.0.5")],
          Zones := [(str "example.com", ⟨[(str "db.example.com", str "10.0.0.9")]⟩)] }
        ⟨190 :: 239 :: 1 :: 0 :: (be16 1 ++ [0, 0, 0, 0, 0, 0]
          ++ DNSQuestion.wire ⟨str "api.example.com", 1, 1⟩), []⟩
      = .ok [be16 (190 * 256 + 239) ++ [0x81, 0x80] ++ be16 1 ++ be16 1 ++ be16 0 ++ be16 0
          ++ DNSQuestion.wire ⟨str "api.example.com", 1, 1⟩
          ++ (DNSQuestion.wire ⟨str "api.example.com", 1, 1⟩
            ++ be32 300 ++ [0, 4] ++ [10, 0, 0, 5])] :=
  handleDNSRequest_global_answer (netParseIPTo4 (fun _ => []))
    { Port := 53, DefaultTTL := 300,
      Records := [(str "api.example.com", str "10.0.0.5")],
      Zones := [(str "example.com", ⟨[(str "db.example.com", str "10.0.0.9")]⟩)] }
    190 239 1 0 [0, 0, 0, 0, 0, 0] ⟨str "api.example.com", 1, 1⟩ [] (str "10.0.0.5")
    10 0 0 5 rfl
    ⟨⟨[str "api", str "example", str "com"], ⟨by decide, by decide⟩, by decide⟩,
      by decide, by decide⟩
    (by decide) (by decide)

/-- An address that the library does not read as IPv4 leaves the answer record without
RDATA: name, type, class, TTL and the length 4 are written, and no address byte. -/
theorem entryWire_unparsed (parseIPTo4 : Str → List Nat)
    (resolver : Str → Str × Nat × Option String) (q : DNSQuestion) (ip : Str) (ttl : Nat)
    (hres : resolver q.Name = (ip, ttl, none)) (hip : parseIPTo4 ip = []) :
    entryWire parseIPTo4 resolver q = q.wire ++ (q.wire ++ be32 ttl ++ [0, 4]) := by
  simp [entryWire, hres, answerWire, hip, DNSQuestion.wire, questionWire]

/-- C12 (the code departs from the claim): with the global record `a -> not-an-ip`, which
is no IPv4 syntax, a request for `a` is answered, and the response holds an answer record
for it: name, type, class, TTL 300 and the resource-data length 4, followed by no address
byte.  Encoding does not fail.  The text holds no `:`, so this is so whatever the library
makes of IPv6 text. -/
theorem createDNSResponse_unparsed_address (parseIPv6To4 : Str → List Nat) :
    netParseIPTo4 parseIPv6To4 (str "not-an-ip") = []
      ∧ Server.resolveQuery ⟨53, 300, [(str "a", str "not-an-ip")], []⟩ (str "a")
        = (str "not-an-ip", 300, none)
      ∧ createDNSResponse (netParseIPTo4 parseIPv6To4) ⟨1, 256, [⟨str "a", 1, 1⟩]⟩
          (Server.resolveQuery ⟨53, 300, [(str "a", str "not-an-ip")], []⟩)
        = [0, 1, 0x81, 0x80, 0, 1, 0, 1, 0, 0, 0, 0,
            1, 97, 0, 0, 1, 0, 1,
            1, 97, 0, 0, 1, 0, 1, 0, 0, 1, 44, 0, 4]
      ∧ Server.handleDNSRequest (netParseIPTo4 parseIPv6To4)
          ⟨53, 300, [(str "a", str "not-an-ip")], []⟩
          ⟨[0, 1, 1, 0, 0, 1, 0, 0, 0, 0, 0, 0, 1, 97, 0, 0, 1, 0, 1], []⟩
        = .ok [[0, 1, 0x81, 0x80, 0, 1, 0, 1, 0, 0, 0, 0,
            1, 97, 0, 0, 1, 0, 1,
            1, 97, 0, 0, 1, 0, 1, 0, 0, 1, 44, 0, 4]] := by
  refine ⟨rfl, by decide, rfl, rfl⟩

/-! ### Labels that reach `writeQName` -/

theorem stringsSplit_append_cons (l : Str) (sep : Nat) (r : Str) :
    stringsSplit (l ++ sep :: r) sep = stringsSplit l sep ++ stringsSplit r sep := by
  induction l with
  | nil => simp [stringsSplit]
  | cons c cs ih =>
    by_cases hc : c = sep
    · simp [stringsSplit, hc, ← ih]
    · rw [List.cons_append, stringsSplit_cons_ne _ _ _ hc, stringsSplit_cons_ne _ _ _ hc, ih]
      cases hsp : stringsSplit cs sep with
      | nil => exact absurd hsp (stringsSplit_ne_nil cs sep)
      | cons p ps => rfl

theorem stringsSplit_part_length (s : Str) (sep : Nat) :
    ∀ p ∈ stringsSplit s sep, p.length ≤ s.length := by
  induction s with
  | nil => simp [stringsSplit]
  | cons c cs ih =>
    by_cases hc : c = sep
    · intro p hp
      simp only [stringsSplit, if_pos hc, List.mem_cons] at hp
      rcases hp with rfl | hp
      · simp
      · have := ih p hp
        simp only [List.length_cons]
        omega
    · rw [stringsSplit_cons_ne c cs sep hc]
      cases hsp : stringsSplit cs sep with
      | nil => exact absurd hsp (stringsSplit_ne_nil cs sep)
      | cons q qs =>
        rw [hsp] at ih
        intro p hp
        simp only [List.mem_cons] at hp
        rcases hp with rfl | hp
        · have := ih q (by simp)
          simp only [List.length_cons]
          omega
        · have := ih p (List.mem_cons_of_mem _ hp)
          simp only [List.length_cons]
          omega

/-- The parts into which a joined name splits are no longer than the longest label. -/
theorem stringsSplit_stringsJoin_length (labels : List Str) (bound : Nat)
    (h : ∀ l ∈ labels, l.length ≤ bound) :
    ∀ p ∈ stringsSplit (stringsJoin labels [46]) 46, p.length ≤ bound := by
  induction labels with
  | nil => simp [stringsJoin, stringsSplit]
  | cons l rest ih =>
    cases rest with
    | nil =>
      intro p hp
      have := stringsSplit_part_length l 46 p (by simpa [stringsJoin] using hp)
      have := h l (by simp)
      omega
    | cons q rest =>
      intro p hp
      rw [stringsJoin_cons_cons, List.append_assoc, List.singleton_append,
        stringsSplit_append_cons, List.mem_append] at hp
      rcases hp with hp | hp
      · have := stringsSplit_part_length l 46 p hp
        have := h l (by simp)
        omega
      · exact ih (fun x hx => h x (List.mem_cons_of_mem _ hx)) p hp

theorem Slice.index_mem (data : Slice) (i x : Nat) (h : data.index i = some x) :
    x ∈ data.vis := by
  unfold Slice.index at h
  split at h
  · exact List.get?_mem h
  · cases h

theorem Slice.slice_vis_length (data part : Slice) (lo hi : Nat)
    (h : data.slice lo hi = some part) : part.vis.length ≤ hi - lo := by
  unfold Slice.slice at h
  split at h
  · simp only [Option.some.injEq] at h
    rw [← h]
    exact List.length_take_le _ _
  · cases h

/-- The labels that the loop of `parseQName` collects from bytes are at most 255 bytes
long. -/
theorem parseQNameLoop_label_length (data : Slice) (hb : ∀ b ∈ data.vis, b < 256)
    (fuel : Nat) (acc : List Str) (offset : Nat) (r : List Str × Nat)
    (hacc : ∀ l ∈ acc, l.length ≤ 255)
    (h : parseQNameLoop data fuel acc offset = .ok r) : ∀ l ∈ r.1, l.length ≤ 255 := by
  induction fuel generalizing acc offset with
  | zero => simp [parseQNameLoop] at h
  | succ f ih =>
    rw [parseQNameLoop] at h
    cases hidx : data.index offset with
    | none => rw [hidx] at h; cases h
    | some length =>
      rw [hidx] at h
      have hlen : length < 256 := hb length (Slice.index_mem data offset length hidx)
      by_cases hz : length = 0
      · simp only [hz, if_true, Outcome.ok.injEq] at h
        rw [← h]
        exact hacc
      · simp only [if_neg hz] at h
        cases hsl : data.slice (offset + 1) (offset + 1 + length) with
        | none => rw [hsl] at h; cases h
        | some part =>
          rw [hsl] at h
          have hpart := Slice.slice_vis_length data part _ _ hsl
          refine ih (acc ++ [part.vis]) _ ?_ h
          intro l hl
          rw [List.mem_append, List.mem_singleton] at hl
          rcases hl with hl | rfl
          · exact hacc l hl
          · omega

/-- A name that `parseQName` decodes from bytes splits at its `.` bytes into parts of at
most 255 bytes. -/
theorem parseQName_part_length (data : Slice) (hb : ∀ b ∈ data.vis, b < 256) (name : Str)
    (n : Nat) (h : parseQName data = .ok (name, n)) :
    ∀ p ∈ stringsSplit name 46, p.length ≤ 255 := by
  unfold parseQName at h
  cases hloop : parseQNameLoop data (data.len + 1) [] 0 with
  | ok r =>
    rw [hloop] at h
    simp only [Outcome.ok.injEq, Prod.mk.injEq] at h
    rw [← h.1, str_dot]
    exact stringsSplit_stringsJoin_length r.1 255
      (parseQNameLoop_label_length data hb _ [] 0 r (by simp) hloop)
  | error msg => rw [hloop] at h; cases h
  | panic => rw [hloop] at h; cases h
  | outOfFuel => rw [hloop] at h; cases h

theorem Slice.sliceFrom_vis (data tail : Slice) (lo : Nat)
    (h : data.sliceFrom lo = some tail) : tail.vis = data.vis.drop lo := by
  unfold Slice.sliceFrom Slice.slice at h
  split at h
  · rename_i hle
    simp only [Option.some.injEq] at h
    rw [← h]
    simp only [Slice.backing, Slice.len] at hle ⊢
    rw [List.drop_append_of_le_length hle.1, List.take_left']
    simp
  · cases h

/-- The question names that `parseDNSRequest` decodes from bytes split at their `.` bytes
into parts of at most 255 bytes: `writeQName` is handed no longer label by the handler. -/
theorem parseDNSRequest_part_length (data : Slice) (hb : ∀ b ∈ data.vis, b < 256)
    (request : DNSRequest) (h : parseDNSRequest data = .ok request) :
    ∀ q ∈ request.Questions, ∀ p ∈ stringsSplit q.Name 46, p.length ≤ 255 := by
  have hq : ∀ (k offset : Nat) (acc qs : List DNSQuestion),
      (∀ q ∈ acc, ∀ p ∈ stringsSplit q.Name 46, p.length ≤ 255) →
      parseQuestions data k offset acc = .ok qs →
      ∀ q ∈ qs, ∀ p ∈ stringsSplit q.Name 46, p.length ≤ 255 := by
    intro k
    induction k with
    | zero =>
      intro offset acc qs hacc hk
      simp only [parseQuestions, Outcome.ok.injEq] at hk
      rw [← hk]
      exact hacc
    | succ k ih =>
      intro offset acc qs hacc hk
      rw [parseQuestions] at hk
      cases hsl : data.sliceFrom offset with
      | none => rw [hsl] at hk; cases hk
      | some tail =>
        rw [hsl] at hk
        dsimp only at hk
        have htail : ∀ b ∈ tail.vis, b < 256 := by
          intro b hmem
          rw [Slice.sliceFrom_vis data tail offset hsl] at hmem
          exact hb b (List.mem_of_mem_drop hmem)
        cases hn : parseQName tail with
        | ok r =>
          obtain ⟨qName, n⟩ := r
          rw [hn] at hk
          have hname := parseQName_part_length tail htail qName n hn
          dsimp only at hk
          split at hk
          · cases hk
          · split at hk
            · cases hk
            · refine ih _ _ qs ?_ hk
              intro q hmem
              rw [List.mem_append, List.mem_singleton] at hmem
              rcases hmem with hmem | rfl
              · exact hacc q hmem
              · exact hname
        | error msg => rw [hn] at hk; cases hk
        | panic => rw [hn] at hk; cases hk
        | outOfFuel => rw [hn] at hk; cases hk
  unfold parseDNSRequest at h
  split at h
  · cases h
  · split at h
    · rename_i id flags questionCount _ _ _
      cases hqs : parseQuestions data questionCount 12 [] with
      | ok qs =>
        rw [hqs] at h
        simp only [Outcome.ok.injEq] at h
        rw [← h]
        exact hq questionCount 12 [] qs (by simp) hqs
      | error msg => rw [hqs] at h; cases h
      | panic => rw [hqs] at h; cases h
      | outOfFuel => rw [hqs] at h; cases h
    · cases h

/-! ### Long labels -/

theorem stringsSplit_encoded_length (s : Str) (sep : Nat) (f : Str → Nat) :
    ((stringsSplit s sep).map fun p => f p :: p).flatten.length = s.length + 1 := by
  induction s with
  | nil => simp [stringsSplit]
  | cons c cs ih =>
    by_cases hc : c = sep
    · simp only [stringsSplit, if_pos hc, List.map_cons, List.flatten_cons, List.length_append,
        List.length_cons, List.length_nil, ih]
      omega
    · rw [stringsSplit_cons_ne c cs sep hc]
      cases hsp : stringsSplit cs sep with
      | nil => exact absurd hsp (stringsSplit_ne_nil cs sep)
      | cons p ps =>
        rw [hsp] at ih
        simp only [List.map_cons, List.flatten_cons, List.length_append, List.length_cons] at ih ⊢
        omega

/-- C13, as amended: `writeQName` has no failure path.  For every name, also one with a
label longer than 255 bytes, it appends for each label a length byte, the label's length
modulo 256, and the label's bytes, then a zero byte: `len(name) + 2` bytes in all. -/
theorem writeQName_never_fails (buffer : List Nat) (name : Str) :
    writeQName buffer name
        = buffer ++ ((stringsSplit name 46).map fun p => (p.length % 256) :: p).flatten ++ [0]
      ∧ (writeQName buffer name).length = buffer.length + name.length + 2 := by
  have h : writeQName buffer name
      = buffer ++ ((stringsSplit name 46).map fun p => (p.length % 256) :: p).flatten ++ [0] := by
    unfold writeQName
    rw [writeQName_foldl]
  refine ⟨h, ?_⟩
  rw [h]
  simp only [List.length_append, List.length_singleton,
    stringsSplit_encoded_length name 46 (fun p => p.length % 256)]
  omega

set_option maxRecDepth 100000 in
/-- C13, counterexample: for the name that is one label of 256 bytes `a`, `writeQName`
emits an encoding: the length byte 0, the 256 bytes, and the zero byte. -/
theorem writeQName_long_label :
    stringsSplit (List.replicate 256 97) 46 = [List.replicate 256 97]
      ∧ (List.replicate 256 97).length = 256
      ∧ writeQName [] (List.replicate 256 97) = 0 :: (List.replicate 256 97 ++ [0]) := by
  refine ⟨by decide, by simp, by decide⟩

/-! ### Echo of the questions -/

/-- The entry of a question in the response, with the answer record spelled out. -/
theorem entryWire_eq (parseIPTo4 : Str → List Nat)
    (resolver : Str → Str × Nat × Option String) (q : DNSQuestion) :
    entryWire parseIPTo4 resolver q
      = q.wire ++
          match resolver q.Name with
          | (ip, ttl, none) => q.wire ++ be32 ttl ++ [0, 4] ++ parseIPTo4 ip
          | (_, _, some _) => [] := by
  unfold entryWire
  rcases resolver q.Name with ⟨ip, ttl, err⟩
  cases err <;> rfl

/-- C15, as amended: for a datagram that holds, behind the 12-byte header, the declared
number of questions, each with a name of one or more labels without a `.` byte, followed by
any bytes, the request is decoded and the bytes that `createDNSResponse` emits for
question i (name, type and class, in the question and again at the head of its answer
record) are the bytes of question i in the datagram. -/
theorem createDNSResponse_echo (parseIPTo4 : Str → List Nat)
    (resolver : Str → Str × Nat × Option String) (b0 b1 b2 b3 : Nat) (counts : List Nat)
    (ws : List WireQuestion) (post spare : List Nat) (hcounts : counts.length = 6)
    (hw : ∀ w ∈ ws, w.OnWire ∧ w.Plain) (hN : ws.length < 65536) :
    ∃ request,
      parseDNSRequest
          ⟨b0 :: b1 :: b2 :: b3 :: (be16 ws.length ++ counts
            ++ ((ws.map WireQuestion.bytes).flatten ++ post)), spare⟩ = .ok request
        ∧ request.Questions = ws.map WireQuestion.decoded
        ∧ (createDNSResponse parseIPTo4 request resolver).drop 12
          = (ws.map fun w =>
              w.bytes ++
                match resolver w.decoded.Name with
                | (ip, ttl, none) => w.bytes ++ be32 ttl ++ [0, 4] ++ parseIPTo4 ip
                | (_, _, some _) => []).flatten := by
  refine ⟨_, parseDNSRequest_wireBytes b0 b1 b2 b3 counts ws post spare hcounts
    (fun w hm => (hw w hm).1) hN, rfl, ?_⟩
  rw [createDNSResponse_eq]
  have hlen : (be16 (b0 * 256 + b1) ++ [129, 128]
      ++ be16 ((ws.map WireQuestion.decoded).length % 65536)
      ++ be16 ((ws.map WireQuestion.decoded).length % 65536) ++ [0, 0, 0, 0]).length = 12 := by
    simp [be16]
  rw [← hlen, List.drop_left, List.map_map]
  congr 1
  apply List.map_congr_left
  intro w hm
  simp only [Function.comp_apply, entryWire_eq,
    WireQuestion.decoded_wire w (hw w hm).1 (hw w hm).2]

/-- Witness for C15, as amended: the questions `a` and `b.go`, followed by two bytes. -/
theorem createDNSResponse_echo_witness :
    ∃ request,
      parseDNSRequest
          ⟨0 :: 7 :: 1 :: 0 :: (be16 [(([str "a"], 1, 1) : WireQuestion),
              ([str "b", str "go"], 28, 1)].length ++ [0, 0, 0, 0, 0, 0]
            ++ (([(([str "a"], 1, 1) : WireQuestion), ([str "b", str "go"], 28, 1)].map
              WireQuestion.bytes).flatten ++ [9, 9])), [5]⟩ = .ok request
        ∧ request.Questions
          = [(([str "a"], 1, 1) : WireQuestion), ([str "b", str "go"], 28, 1)].map
              WireQuestion.decoded
        ∧ (createDNSResponse (netParseIPTo4 (fun _ => [])) request
            (Server.resolveQuery ⟨53, 300, [(str "a", str "10.0.0.5")], []⟩)).drop 12
          = ([(([str "a"], 1, 1) : WireQuestion), ([str "b", str "go"], 28, 1)].map
              fun (w : WireQuestion) =>
              w.bytes ++
                match Server.resolveQuery ⟨53, 300, [(str "a", str "10.0.0.5")], []⟩
                    w.decoded.Name with
                | (ip, ttl, none) => w.bytes ++ be32 ttl ++ [0, 4] ++ (netParseIPTo4 (fun _ => [])) ip
                | (_, _, some _) => []).flatten :=
  createDNSResponse_echo (netParseIPTo4 (fun _ => []))
    (Server.resolveQuery ⟨53, 300, [(str "a", str "10.0.0.5")], []⟩) 0 7 1 0
    [0, 0, 0, 0, 0, 0] [([str "a"], 1, 1), ([str "b", str "go"], 28, 1)] [9, 9] [5] rfl
    (by
      intro w hm
      simp only [List.mem_cons, List.mem_singleton, List.not_mem_nil, or_false] at hm
      rcases hm with rfl | rfl <;>
        exact ⟨⟨by decide, by decide, by decide⟩, ⟨by decide, by decide⟩⟩)
    (by decide)

/-- C15, counterexample: a request for the root name, whose question is the five bytes
`00 00 01 00 01`, is decoded, and the response holds for it the six bytes
`00 00 00 01 00 01`; a request whose name is the one label `a.b`, the question
`03 61 2E 62 00 00 01 00 01`, is decoded, and the response holds for it
`01 61 01 62 00 00 01 00 01`. -/
theorem createDNSResponse_not_echo :
    (parseDNSRequest ⟨[0, 1, 1, 0, 0, 1, 0, 0, 0, 0, 0, 0] ++ [0, 0, 1, 0, 1], []⟩
        = .ok ⟨1, 256, [⟨[], 1, 1⟩]⟩
      ∧ (createDNSResponse (netParseIPTo4 (fun _ => [])) ⟨1, 256, [⟨[], 1, 1⟩]⟩
          (Server.resolveQuery ⟨53, 300, [], []⟩)).drop 12 = [0, 0, 0, 1, 0, 1]
      ∧ (createDNSResponse (netParseIPTo4 (fun _ => [])) ⟨1, 256, [⟨[], 1, 1⟩]⟩
          (Server.resolveQuery ⟨53, 300, [], []⟩)).drop 12 ≠ [0, 0, 1, 0, 1])
    ∧ (parseDNSRequest
          ⟨[0, 1, 1, 0, 0, 1, 0, 0, 0, 0, 0, 0] ++ [3, 97, 46, 98, 0, 0, 1, 0, 1], []⟩
        = .ok ⟨1, 256, [⟨[97, 46, 98], 1, 1⟩]⟩
      ∧ (createDNSResponse (netParseIPTo4 (fun _ => [])) ⟨1, 256, [⟨[97, 46, 98], 1, 1⟩]⟩
          (Server.resolveQuery ⟨53, 300, [], []⟩)).drop 12 = [1, 97, 1, 98, 0, 0, 1, 0, 1]
      ∧ (createDNSResponse (netParseIPTo4 (fun _ => [])) ⟨1, 256, [⟨[97, 46, 98], 1, 1⟩]⟩
          (Server.resolveQuery ⟨53, 300, [], []⟩)).drop 12
        ≠ [3, 97, 46, 98, 0, 0, 1, 0, 1]) := by
  refine ⟨⟨by decide, by decide, by decide⟩, ⟨by decide, by decide, by decide⟩⟩

/-! ### The shared receive buffer -/

set_option maxRecDepth 100000 in
/-- C14 (the code departs from the claim): the handlers share the receive buffer with the
listener.  A request for `a` with ID 1 arrives and its handler is started; before that
handler is scheduled a request for `b` with ID 2 arrives.  The first handler's argument
`buffer[:19]` held the first datagram and now holds the second, and both handlers answer
the request for `b`; scheduled before the second datagram arrives, the first handler
answers the request for `a`. -/
theorem handleDNSRequest_shared_buffer :
    (bufferPrefix (Server.Start (netParseIPTo4 (fun _ => [])) ⟨53, 300, [], []⟩
        [.receive [0, 1, 1, 0, 0, 1, 0, 0, 0, 0, 0, 0, 1, 97, 0, 0, 1, 0, 1]]).buffer 19).vis
        = [0, 1, 1, 0, 0, 1, 0, 0, 0, 0, 0, 0, 1, 97, 0, 0, 1, 0, 1]
      ∧ (Server.Start (netParseIPTo4 (fun _ => [])) ⟨53, 300, [], []⟩
          [.receive [0, 1, 1, 0, 0, 1, 0, 0, 0, 0, 0, 0, 1, 97, 0, 0, 1, 0, 1],
            .receive [0, 2, 1, 0, 0, 1, 0, 0, 0, 0, 0, 0, 1, 98, 0, 0, 1, 0, 1]]).running
        = [19, 19]
      ∧ (bufferPrefix (Server.Start (netParseIPTo4 (fun _ => [])) ⟨53, 300, [], []⟩
          [.receive [0, 1, 1, 0, 0, 1, 0, 0, 0, 0, 0, 0, 1, 97, 0, 0, 1, 0, 1],
            .receive [0, 2, 1, 0, 0, 1, 0, 0, 0, 0, 0, 0, 1, 98, 0, 0, 1, 0, 1]]).buffer 19).vis
        = [0, 2, 1, 0, 0, 1, 0, 0, 0, 0, 0, 0, 1, 98, 0, 0, 1, 0, 1]
      ∧ (Server.Start (netParseIPTo4 (fun _ => [])) ⟨53, 300, [], []⟩
          [.receive [0, 1, 1, 0, 0, 1, 0, 0, 0, 0, 0, 0, 1, 97, 0, 0, 1, 0, 1],
            .receive [0, 2, 1, 0, 0, 1, 0, 0, 0, 0, 0, 0, 1, 98, 0, 0, 1, 0, 1],
            .run 0, .run 0]).written
        = [.ok [[0, 2, 0x81, 0x80, 0, 1, 0, 1, 0, 0, 0, 0, 1, 98, 0, 0, 1, 0, 1]],
            .ok [[0, 2, 0x81, 0x80, 0, 1, 0, 1, 0, 0, 0, 0, 1, 98, 0, 0, 1, 0, 1]]]
      ∧ (Server.Start (netParseIPTo4 (fun _ => [])) ⟨53, 300, [], []⟩
          [.receive [0, 1, 1, 0, 0, 1, 0, 0, 0, 0, 0, 0, 1, 97, 0, 0, 1, 0, 1],
            .run 0,
            .receive [0, 2, 1, 0, 0, 1, 0, 0, 0, 0, 0, 0, 1, 98, 0, 0, 1, 0, 1],
            .run 0]).written
        = [.ok [[0, 1, 0x81, 0x80, 0, 1, 0, 1, 0, 0, 0, 0, 1, 97, 0, 0, 1, 0, 1]],
            .ok [[0, 2, 0x81, 0x80, 0, 1, 0, 1, 0, 0, 0, 0, 1, 98, 0, 0, 1, 0, 1]]] := by
  refine ⟨by decide, by decide, by decide, by decide, by decide⟩

set_option maxRecDepth 100000 in
/-- A panic in a handler ends the process: after the handler of a header that declares a
question it does not carry has run, the listener receives nothing more and no response is
written, also not to the well-formed request that comes next. -/
theorem Server.Start_exits_on_panic :
    (Server.Start (netParseIPTo4 (fun _ => [])) ⟨53, 300, [], []⟩
        [.receive [0, 1, 1, 0, 0, 1, 0, 0, 0, 0, 0, 0], .run 0,
          .receive [0, 2, 1, 0, 0, 1, 0, 0, 0, 0, 0, 0, 1, 98, 0, 0, 1, 0, 1], .run 0]).exited
        = true
      ∧ (Server.Start (netParseIPTo4 (fun _ => [])) ⟨53, 300, [], []⟩
          [.receive [0, 1, 1, 0, 0, 1, 0, 0, 0, 0, 0, 0], .run 0,
            .receive [0, 2, 1, 0, 0, 1, 0, 0, 0, 0, 0, 0, 1, 98, 0, 0, 1, 0, 1], .run 0]).written
        = []
      ∧ (Server.Start (netParseIPTo4 (fun _ => [])) ⟨53, 300, [], []⟩
          [.receive [0, 1, 1, 0, 0, 1, 0, 0, 0, 0, 0, 0], .run 0,
            .receive [0, 2, 1, 0, 0, 1, 0, 0, 0, 0, 0, 0, 1, 98, 0, 0, 1, 0, 1], .run 0]).running
        = [] := by
  refine ⟨by decide, by decide, by decide⟩

/-! ### Questions and answers of the response -/

/-- C6, as amended: for every resolver whose addresses, where it returns no error, are
text that the library reads as an IPv4 address, the bytes of the response behind the
12-byte header are, question by question in the original order, the question (encoded
name, type, class) followed, exactly when the resolver returned no error for the name, by
an answer record (encoded name, type, class, TTL in four bytes, `00 04`, the four address
bytes), and by nothing when it returned an error. -/
theorem createDNSResponse_answers (parseIPTo4 : Str → List Nat) (request : DNSRequest)
    (resolver : Str → Str × Nat × Option String)
    (answer : Str → Option ((Nat × Nat × Nat × Nat) × Nat))
    (h : ∀ q ∈ request.Questions, Resolved parseIPTo4 (resolver q.Name) (answer q.Name)) :
    (createDNSResponse parseIPTo4 request resolver).drop 12
      = (request.Questions.map fun q =>
          (writeQName [] q.Name ++ be16 q.QType ++ be16 q.QClass) ++
            match answer q.Name with
            | some ((a, b, c, d), ttl) =>
              writeQName [] q.Name ++ be16 q.QType ++ be16 q.QClass ++ be32 ttl ++ [0, 4]
                ++ [a, b, c, d]
            | none => []).flatten := by
  rw [createDNSResponse_drop_header]
  congr 1
  apply List.map_congr_left
  intro q hq
  have hr := h q hq
  rw [entryWire_eq]
  rcases hres : resolver q.Name with ⟨ip, rttl, err⟩
  rw [hres] at hr
  cases hans : answer q.Name with
  | none =>
    rw [hans] at hr
    cases err with
    | none => exact absurd rfl hr
    | some e => rfl
  | some v =>
    obtain ⟨⟨a, b, c, d⟩, ttl⟩ := v
    rw [hans] at hr
    obtain ⟨herr, httl, hip⟩ := hr
    simp only at herr httl hip
    subst herr httl
    simp only [hip]
    rfl

/-- Witness for C6, as amended: the questions `api.example.com`, which the global table
maps to `10.0.0.5`, and `unknown.example.com`, which does not resolve; one answer record,
behind the first question. -/
theorem createDNSResponse_answers_witness :
    (createDNSResponse (netParseIPTo4 (fun _ => []))
        ⟨7, 256, [⟨str "api.example.com", 1, 1⟩, ⟨str "unknown.example.com", 1, 1⟩]⟩
        (Server.resolveQuery
          ⟨53, 300, [(str "api.example.com", str "10.0.0.5")],
            [(str "example.com", ⟨[(str "db.example.com", str "10.0.0.9")]⟩)]⟩)).drop 12
      = ((DNSRequest.mk 7 256
            [⟨str "api.example.com", 1, 1⟩, ⟨str "unknown.example.com", 1, 1⟩]).Questions.map
          fun q =>
          (writeQName [] q.Name ++ be16 q.QType ++ be16 q.QClass) ++
            match (fun name => if name = str "api.example.com"
                then some ((10, 0, 0, 5), 300) else none) q.Name with
            | some ((a, b, c, d), ttl) =>
              writeQName [] q.Name ++ be16 q.QType ++ be16 q.QClass ++ be32 ttl ++ [0, 4]
                ++ [a, b, c, d]
            | none => []).flatten :=
  createDNSResponse_answers (netParseIPTo4 (fun _ => []))
    ⟨7, 256, [⟨str "api.example.com", 1, 1⟩, ⟨str "unknown.example.com", 1, 1⟩]⟩
    (Server.resolveQuery
      ⟨53, 300, [(str "api.example.com", str "10.0.0.5")],
        [(str "example.com", ⟨[(str "db.example.com", str "10.0.0.9")]⟩)]⟩)
    (fun name => if name = str "api.example.com" then some ((10, 0, 0, 5), 300) else none)
    (by
      intro q hq
      simp only [List.mem_cons, List.mem_singleton, List.not_mem_nil, or_false] at hq
      rcases hq with rfl | rfl
      · exact ⟨by decide, by decide, by decide⟩
      · show (Server.resolveQuery _ _).2.2 ≠ none
        decide)

/-- C6, counterexample: the resolver of a server with the global record
`a -> not-an-ip` returns no error for the name `a`, and the response to the question `a`
holds behind its header the question and an answer record that ends with the length
`00 04`: 20 bytes, which are not the question and an answer record with four address
bytes, whatever the address. -/
theorem createDNSResponse_answer_without_address :
    Server.resolveQuery ⟨53, 300, [(str "a", str "not-an-ip")], []⟩ (str "a")
        = (str "not-an-ip", 300, none)
      ∧ (createDNSResponse (netParseIPTo4 (fun _ => [])) ⟨1, 256, [⟨str "a", 1, 1⟩]⟩
          (Server.resolveQuery ⟨53, 300, [(str "a", str "not-an-ip")], []⟩)).drop 12
        = [1, 97, 0, 0, 1, 0, 1, 1, 97, 0, 0, 1, 0, 1, 0, 0, 1, 44, 0, 4]
      ∧ ¬ ∃ a b c d : Nat,
          (createDNSResponse (netParseIPTo4 (fun _ => [])) ⟨1, 256, [⟨str "a", 1, 1⟩]⟩
            (Server.resolveQuery ⟨53, 300, [(str "a", str "not-an-ip")], []⟩)).drop 12
          = (writeQName [] (str "a") ++ be16 1 ++ be16 1)
            ++ (writeQName [] (str "a") ++ be16 1 ++ be16 1 ++ be32 300 ++ [0, 4]
              ++ [a, b, c, d]) := by
  have hresp : (createDNSResponse (netParseIPTo4 (fun _ => [])) ⟨1, 256, [⟨str "a", 1, 1⟩]⟩
      (Server.resolveQuery ⟨53, 300, [(str "a", str "not-an-ip")], []⟩)).drop 12
      = [1, 97, 0, 0, 1, 0, 1, 1, 97, 0, 0, 1, 0, 1, 0, 0, 1, 44, 0, 4] := by decide
  refine ⟨by decide, hresp, ?_⟩
  rintro ⟨a, b, c, d, h⟩
  rw [hresp] at h
  have hq : writeQName [] (str "a") ++ be16 1 ++ be16 1 = [1, 97, 0, 0, 1, 0, 1] := by decide
  rw [hq] at h
  have hlen := congrArg List.length h
  simp [be32] at hlen

example : str "a.b" = [97, 46, 98] := by decide
example : stringsSplit (str "ab.c") 46 = [[97, 98], [99]] := by decide
example : parseQName ⟨[3, 119, 119, 119, 2, 103, 111, 0, 7], []⟩ = .ok (str "www.go", 8) := by decide
example : parseDNSRequest ⟨[0, 1, 1, 0, 0, 1, 0, 0, 0, 0, 0, 0], [9, 9, 9]⟩ = .panic := by decide
example : parseDNSRequest ⟨[0, 1, 1, 0, 0, 1, 0, 0, 0, 0, 0, 0, 1, 97, 0], [0, 1, 0, 1]⟩
    = .ok ⟨1, 256, [⟨[97], 1, 1⟩]⟩ := by decide
example : writeQName [] (str "www.go") = [3, 119, 119, 119, 2, 103, 111, 0] := by decide
example : writeQName [] [] = [0, 0] := by decide

end Golightspeed
